import Mathlib

/-!
Verification of the deterministic row-generation engine of
`search-under-constraints` (`bench/generator.py`), against its
natural-language specification.

Modelling conventions:
* Python `str` values are embedded as `List Char` (`Str` below).
* Python `float` values (weights, rates, `random()` draws) are embedded as `ℚ`.
* `datetime` values are embedded as integer seconds since the epoch (UTC).
* The pseudo-random source `random.Random` seeded from a blake2b digest, and
  the md5 hex digest used for row identifiers, are machine-level digest
  primitives; they are abstracted by a `Primitives` record carrying an
  arbitrary deterministic stream `entropy seed rowIndex drawCounter` and an
  arbitrary deterministic digest `md5hex seed rowIndex`.  Every theorem is
  quantified over the primitives, so the results hold for any instantiation,
  in particular for the concrete blake2b/MT19937/md5 functions of the source.
* A Python generator that can `raise` is embedded as `Except String`.
-/

set_option maxHeartbeats 1000000

abbrev Str := List Char

/-- Python `str.split()` whitespace test (ASCII fragment; the generator's
vocabulary only ever contains `' '` as whitespace). -/
def isWs (c : Char) : Bool :=
  c = ' ' || c = '\t' || c = '\n' || c = '\r' || c = '\x0b' || c = '\x0c'

/-- Worker for `str.split()`: accumulates the current (reversed) token. -/
def splitWsAux : Str → Str → List Str
  | [], acc => if acc = [] then [] else [acc.reverse]
  | c :: cs, acc =>
    if isWs c then
      if acc = [] then splitWsAux cs [] else acc.reverse :: splitWsAux cs []
    else
      splitWsAux cs (c :: acc)

/-- Python `text.split()`: split on whitespace runs, dropping empty parts. -/
def splitWsL (s : Str) : List Str := splitWsAux s []

/-- Python `" ".join(parts)`. -/
def joinSpL (parts : List Str) : Str := List.intercalate [' '] parts

/-- The check `"{" in out or "}" in out` of `base_name_for_index`. -/
def hasBrace (s : Str) : Bool := s.contains '{' || s.contains '}'

/-- Python `str.replace(old, new)` (all non-overlapping occurrences, scanned
left to right), written with explicit fuel so that it is structurally
recursive; `replaceL` supplies fuel `s.length`, which is always sufficient.
For empty `old` the source inserts `new` at every boundary; the generator only
ever calls it with the four non-empty placeholder literals, and the embedding
leaves the text unchanged when `old = []`. -/
def replaceFuel (old rep : Str) : Nat → Str → Str
  | 0, s => s
  | _ + 1, [] => []
  | fuel + 1, c :: cs =>
    if old.isPrefixOf (c :: cs) ∧ old ≠ [] then
      rep ++ replaceFuel old rep fuel ((c :: cs).drop old.length)
    else
      c :: replaceFuel old rep fuel cs

/-- Python `s.replace(old, rep)`. -/
def replaceL (old rep s : Str) : Str := replaceFuel old rep s.length s

/-- Decimal digit characters of `n`, most significant first (fuel-structured
quotient recursion; fuel `n + 1` always suffices). -/
def natDigitsFuel : Nat → Nat → Str
  | 0, _ => []
  | fuel + 1, m =>
    if m < 10 then [Nat.digitChar m]
    else natDigitsFuel fuel (m / 10) ++ [Nat.digitChar (m % 10)]

/-- Decimal representation of `n` (no sign, no padding). -/
def natDigits (n : Nat) : Str := natDigitsFuel (n + 1) n

/-- Python `f"{n:0{width}d}"` for `n ≥ 0`: left pad with `'0'` to `width`. -/
def padNum (width n : Nat) : Str :=
  List.replicate (width - (natDigits n).length) '0' ++ natDigits n

/-- Numeric value of a decimal digit string (to state what a rare token's
digits represent). -/
def digitsVal (s : Str) : Nat := s.foldl (fun a c => 10 * a + (c.toNat - 48)) 0

/-! ## The pseudo-random source

`random.Random` seeded via `_row_rng` is modelled as a deterministic stream of
natural numbers together with a counter of draws consumed so far. -/

structure RNG where
  stream : Nat → Nat
  used : Nat

/-- One raw draw from the source. -/
def RNG.next (r : RNG) : Nat × RNG := (r.stream r.used, ⟨r.stream, r.used + 1⟩)

/-- Python `rng.random()`: a uniform draw in `[0, 1)` (53-bit resolution). -/
def RNG.random (r : RNG) : ℚ × RNG :=
  let p := r.next
  (((p.1 % 2 ^ 53 : Nat) : ℚ) / (2 ^ 53 : ℚ), p.2)

/-- Python `rng.randrange(lo, hi)`: a draw in `[lo, hi)`.  The source raises
on an empty range; every call site of the generator guarantees `lo < hi`. -/
def RNG.randrange (r : RNG) (lo hi : Nat) : Nat × RNG :=
  let p := r.next
  (lo + p.1 % (hi - lo), p.2)

/-- Python `rng.randint(lo, hi)` (both ends inclusive). -/
def RNG.randint (r : RNG) (lo hi : Nat) : Nat × RNG := r.randrange lo (hi + 1)

/-- The two deterministic digest primitives of `generator.py`, abstracted:
`entropy seed rowIndex k` is the `k`-th raw draw of the `random.Random`
instance created by `_row_rng(seed, rowIndex)` (blake2b-derived seed, then
MT19937), and `md5hex seed rowIndex` is the 32-character md5 hex digest used
by `deterministic_uuid`.  Both are pure functions of `(seed, rowIndex)`;
the theorems below hold for every choice of `Primitives`. -/
structure Primitives where
  entropy : Int → Nat → Nat → Nat
  md5hex : Int → Nat → Str

/-- `_row_rng(seed, row_index)`: the per-row reproducible random source. -/
def row_rng (P : Primitives) (seed : Int) (row_index : Nat) : RNG :=
  ⟨P.entropy seed row_index, 0⟩

/-! ## Hardcoded vocabulary (verbatim from `generator.py`) -/

def COMMON_TOKENS : List Str :=
  ["organic", "chicken", "gluten", "natural", "spicy", "classic", "premium",
   "fresh", "healthy", "seasoned"].map String.data

def ADJECTIVES : List Str :=
  ["smoky", "crispy", "zesty", "hearty", "sweet", "savory", "tangy", "bright",
   "roasted", "toasted", "herbed", "sliced", "chunky", "creamy", "bold"].map
    String.data

def NOUNS : List Str :=
  ["chips", "soup", "sauce", "tea", "coffee", "broth", "granola", "mix",
   "bites", "snacks", "spread", "berries", "greens", "protein",
   "vitamins"].map String.data

def QUALIFIERS : List Str :=
  ["family size", "single serve", "value pack", "low sodium", "no sugar",
   "extra hot", "limited batch", "stone ground", "farm style"].map String.data

def FILLER_TOKENS : List Str :=
  ["crafted", "selected", "quality", "ingredients", "from", "trusted",
   "sources", "packed", "for", "everyday", "meals", "quick", "snacking",
   "great", "taste", "balanced", "flavor", "kitchen", "pantry", "ready",
   "to", "enjoy"].map String.data

/-! ## Configuration (`bench/config.py` dataclasses) -/

structure TimestampConfig where
  base_utc : Int
  step_seconds : Int
deriving DecidableEq

/-- `RareTokenConfig`; the source fields `prefix` and `end` are Lean keywords
and are embedded as `pfx` and `stop`. -/
structure RareTokenConfig where
  pfx : Str
  start : Nat
  stop : Nat
  width : Nat
deriving DecidableEq

structure DistributionConfig where
  brands : List (Str × ℚ)
  categories : List (Str × ℚ)
deriving DecidableEq

structure TokenInjectionConfig where
  common_row_rate : ℚ
  rare_row_rate : ℚ
  fields : List (Str × ℚ)
deriving DecidableEq

structure DescriptionTokensConfig where
  min : Nat
  max : Nat
deriving DecidableEq

structure DuplicateConfig where
  near_duplicate_row_rate : ℚ
deriving DecidableEq

structure TemplateConfig where
  name_patterns : List Str
deriving DecidableEq

structure SeedConfig where
  seed : Int
  rows : Nat
  timestamps : TimestampConfig
  distributions : DistributionConfig
  token_injection : TokenInjectionConfig
  description_tokens : DescriptionTokensConfig
  duplicates : DuplicateConfig
  rare_tokens : RareTokenConfig
  templates : TemplateConfig
deriving DecidableEq

/-- Output row, field order as in the `COPY` column list. -/
structure ProductRow where
  id : Str
  name : Str
  brand : Str
  category : Str
  description : Str
  created_at : Int
  updated_at : Int
deriving DecidableEq

/-! ## Deterministic primitives -/

/-- `deterministic_uuid(seed, row_index)`: md5 hex digest of
`"{seed}:{row_index}"` laid out as an 8-4-4-4-12 UUID string. -/
def deterministic_uuid (P : Primitives) (seed : Int) (row_index : Nat) : Str :=
  let hex32 := P.md5hex seed row_index
  (hex32.take 8) ++ '-' :: (hex32.drop 8).take 4 ++ '-' ::
    (hex32.drop 12).take 4 ++ '-' :: (hex32.drop 16).take 4 ++ '-' ::
    (hex32.drop 20).take 12

/-- `deterministic_timestamp(base_utc, step_seconds, row_index)`:
`base + row_index * step` seconds. -/
def deterministic_timestamp (base_utc : Int) (step_seconds : Int)
    (row_index : Nat) : Int :=
  base_utc + row_index * step_seconds

/-- `rare_token(cfg, rng)`: `prefix` followed by a zero-padded draw from
`[start, end]`. -/
def rare_token (cfg : SeedConfig) (rng : RNG) : Str × RNG :=
  let p := rng.randint cfg.rare_tokens.start cfg.rare_tokens.stop
  (cfg.rare_tokens.pfx ++ padNum cfg.rare_tokens.width p.1, p.2)

/-! ## Weighted picker -/

/-- The cumulative table `[w1, w1+w2, ...]` built by `WeightedPicker.__init__`
(`acc` is the running `total`). -/
def cumulative (acc : ℚ) : List ℚ → List ℚ
  | [] => []
  | w :: ws => (acc + w) :: cumulative (acc + w) ws

structure WeightedPicker where
  items : List Str
  cdf : List ℚ
  total : ℚ
deriving DecidableEq

/-- `WeightedPicker.__init__`: validates the parallel lists, then stores the
cumulative table; the running `total` ends up equal to the last entry of the
table (`0` is never the stored total for validated input, the lists being
non-empty). -/
def WeightedPicker.ofWeights (items : List Str) (weights : List ℚ) :
    Except String WeightedPicker :=
  if items.length ≠ weights.length then
    .error "items and weights must be same length"
  else if items = [] then .error "items must be non-empty"
  else
    let cdf := cumulative 0 weights
    .ok ⟨items, cdf, cdf.getLastD 0⟩

/-- The `while lo < hi` binary search of `WeightedPicker.pick`, with explicit
fuel (`cdf.length` always suffices: `hi - lo` shrinks at every step). -/
def bsearchFuel (cdf : List ℚ) (x : ℚ) : Nat → Nat → Nat → Nat
  | 0, lo, _ => lo
  | fuel + 1, lo, hi =>
    if lo < hi then
      let mid := (lo + hi) / 2
      if x ≤ cdf.getD mid 0 then bsearchFuel cdf x fuel lo mid
      else bsearchFuel cdf x fuel (mid + 1) hi
    else lo

/-- `WeightedPicker.pick(rng)`: uniform `x` in `[0, total)`, then binary
search for the first cdf entry `≥ x`. -/
def WeightedPicker.pick (p : WeightedPicker) (rng : RNG) : Str × RNG :=
  let q := rng.random
  let x := q.1 * p.total
  let idx := bsearchFuel p.cdf x p.cdf.length 0 (p.cdf.length - 1)
  (p.items.getD idx [], q.2)

/-- `_choose_injection_field(cfg, rng)`: weighted pick over the configured
injection-field distribution. -/
def choose_injection_field (cfg : SeedConfig) (rng : RNG) :
    Except String (Str × RNG) :=
  match WeightedPicker.ofWeights (cfg.token_injection.fields.map Prod.fst)
      (cfg.token_injection.fields.map Prod.snd) with
  | .error e => .error e
  | .ok picker => .ok (picker.pick rng)

/-! ## Name and description builders -/

/-- `base_name_for_index(cfg, row_index)`: re-derives the row's random
source, draws pattern index, adjective, noun, qualifier and flavor adjective
in that fixed order, substitutes the four placeholders, and fails if any
brace survives. -/
def base_name_for_index (P : Primitives) (cfg : SeedConfig)
    (row_index : Nat) : Except String Str :=
  let rng := row_rng P cfg.seed row_index
  let d0 := rng.randrange 0 cfg.templates.name_patterns.length
  let pattern := cfg.templates.name_patterns.getD d0.1 []
  let d1 := d0.2.randrange 0 ADJECTIVES.length
  let adj := ADJECTIVES.getD d1.1 []
  let d2 := d1.2.randrange 0 NOUNS.length
  let noun := NOUNS.getD d2.1 []
  let d3 := d2.2.randrange 0 QUALIFIERS.length
  let qualifier := QUALIFIERS.getD d3.1 []
  let d4 := d3.2.randrange 0 ADJECTIVES.length
  let brandish := ADJECTIVES.getD d4.1 []
  let out := replaceL "{adj}".data adj pattern
  let out := replaceL "{noun}".data noun out
  let out := replaceL "{qualifier}".data qualifier out
  let out := replaceL "{brandish}".data brandish out
  if hasBrace out then
    .error "Unknown template placeholder in name pattern"
  else
    .ok out

/-- `maybe_make_near_duplicate(cfg, row_index, base_name, rng)`. -/
def maybe_make_near_duplicate (P : Primitives) (cfg : SeedConfig)
    (row_index : Nat) (base_name : Str) (rng : RNG) :
    Except String (Str × RNG) :=
  if row_index = 0 then .ok (base_name, rng)
  else
    let d0 := rng.random
    if cfg.duplicates.near_duplicate_row_rate ≤ d0.1 then .ok (base_name, d0.2)
    else
      let d1 := d0.2.randrange 0 row_index
      match base_name_for_index P cfg d1.1 with
      | .error e => .error e
      | .ok source_name =>
        let d2 := d1.2.randrange 0 3
        if d2.1 = 0 then
          let d3 := d2.2.randrange 0 QUALIFIERS.length
          .ok (source_name ++ ' ' :: QUALIFIERS.getD d3.1 [], d3.2)
        else if d2.1 = 1 then
          let d3 := d2.2.randrange 0 ADJECTIVES.length
          .ok (ADJECTIVES.getD d3.1 [] ++ ' ' :: source_name, d3.2)
        else
          .ok (source_name ++ " - limited".data, d2.2)

/-- The `while len(tokens) < target` loop of `build_description`, recursing
on the number of tokens still missing. -/
def buildDescGo : Nat → List Str → RNG → List Str × RNG
  | 0, tokens, rng => (tokens, rng)
  | missing + 1, tokens, rng =>
    let d :=
      if tokens.length % 5 = 0 then
        let d0 := rng.randrange 0 ADJECTIVES.length
        (ADJECTIVES.getD d0.1 [], d0.2)
      else if tokens.length % 5 = 1 then
        let d0 := rng.randrange 0 NOUNS.length
        (NOUNS.getD d0.1 [], d0.2)
      else
        let d0 := rng.randrange 0 FILLER_TOKENS.length
        (FILLER_TOKENS.getD d0.1 [], d0.2)
    buildDescGo missing (tokens ++ [d.1]) d.2

/-- `build_description(cfg, row_index, rng)`: draw a target length in
`[min, max]`, fill by position class, join with single spaces.  (`row_index`
is unused by the source as well.) -/
def build_description (cfg : SeedConfig) (row_index : Nat) (rng : RNG) :
    Str × RNG :=
  let d0 := rng.randint cfg.description_tokens.min cfg.description_tokens.max
  let filled := buildDescGo d0.1 [] d0.2
  (joinSpL filled.1, filled.2)

/-- `inject_token_into_text(text, token, rng)`. -/
def inject_token_into_text (text : Str) (token : Str) (rng : RNG) :
    Str × RNG :=
  let parts := splitWsL text
  if parts = [] then (token, rng)
  else
    let d0 := rng.randrange 0 (parts.length + 1)
    (joinSpL (parts.insertIdx d0.1 token), d0.2)

/-! ## Row assembly (`generate_products` loop body) -/

/-- The four in-flight text fields of the row under construction. -/
structure RowState where
  name : Str
  brand : Str
  category : Str
  description : Str
deriving DecidableEq

/-- The `if field == "name": ... elif ...` chain shared by the two injection
events: mutate exactly the targeted field (brand/category get the token as a
space-separated suffix; an unrecognized field leaves the row unchanged). -/
def applyInjection (st : RowState) (token field : Str) (rng : RNG) :
    RowState × RNG :=
  if field = "name".data then
    let d := inject_token_into_text st.name token rng
    ({ st with name := d.1 }, d.2)
  else if field = "description".data then
    let d := inject_token_into_text st.description token rng
    ({ st with description := d.1 }, d.2)
  else if field = "brand".data then
    ({ st with brand := st.brand ++ ' ' :: token }, rng)
  else if field = "category".data then
    ({ st with category := st.category ++ ' ' :: token }, rng)
  else
    (st, rng)

/-- One injection event of the generation loop: roll against `rate`; when it
triggers, draw the token (via `tokDraw`), draw the target field, and apply
the injection. -/
def injectStep (cfg : SeedConfig) (rate : ℚ) (tokDraw : RNG → Str × RNG)
    (st : RowState) (rng : RNG) : Except String (RowState × RNG) :=
  let d0 := rng.random
  if d0.1 < rate then
    let d1 := tokDraw d0.2
    match choose_injection_field cfg d1.2 with
    | .error e => .error e
    | .ok fd => .ok (applyInjection st d1.1 fd.1 fd.2)
  else
    .ok (st, d0.2)

/-- Token draw of injection event 1: a common token. -/
def commonTokenDraw (rng : RNG) : Str × RNG :=
  let d := rng.randrange 0 COMMON_TOKENS.length
  (COMMON_TOKENS.getD d.1 [], d.2)

/-- The body of the `for i in range(cfg.rows)` loop of `generate_products`,
with the two shared pickers passed in. -/
def assembleRow (P : Primitives) (cfg : SeedConfig)
    (brand_picker category_picker : WeightedPicker) (i : Nat) :
    Except String ProductRow :=
  let rng := row_rng P cfg.seed i
  let pid := deterministic_uuid P cfg.seed i
  let created := deterministic_timestamp cfg.timestamps.base_utc
    cfg.timestamps.step_seconds i
  let updated := created
  let db := brand_picker.pick rng
  let dc := category_picker.pick db.2
  match base_name_for_index P cfg i with
  | .error e => .error e
  | .ok base_name =>
    match maybe_make_near_duplicate P cfg i base_name dc.2 with
    | .error e => .error e
    | .ok nm =>
      let dd := build_description cfg i nm.2
      let st0 : RowState := ⟨nm.1, db.1, dc.1, dd.1⟩
      match injectStep cfg cfg.token_injection.common_row_rate
          commonTokenDraw st0 dd.2 with
      | .error e => .error e
      | .ok s1 =>
        match injectStep cfg cfg.token_injection.rare_row_rate
            (rare_token cfg) s1.1 s1.2 with
        | .error e => .error e
        | .ok s2 =>
          .ok ⟨pid, s2.1.name, s2.1.brand, s2.1.category, s2.1.description,
            created, updated⟩

/-- Sequential materialization of the generator: yield the rows in order,
aborting at the first raised error. -/
def mapE (f : Nat → Except String ProductRow) :
    List Nat → Except String (List ProductRow)
  | [] => .ok []
  | i :: is =>
    match f i with
    | .error e => .error e
    | .ok r =>
      match mapE f is with
      | .error e => .error e
      | .ok rs => .ok (r :: rs)

/-- `generate_products(cfg)`: build the two shared pickers once, then run the
loop for indices `0 .. cfg.rows - 1`. -/
def generate_products (P : Primitives) (cfg : SeedConfig) :
    Except String (List ProductRow) :=
  match WeightedPicker.ofWeights (cfg.distributions.brands.map Prod.fst)
      (cfg.distributions.brands.map Prod.snd) with
  | .error e => .error e
  | .ok brand_picker =>
    match WeightedPicker.ofWeights (cfg.distributions.categories.map Prod.fst)
        (cfg.distributions.categories.map Prod.snd) with
    | .error e => .error e
    | .ok category_picker =>
      mapE (assembleRow P cfg brand_picker category_picker)
        (List.range cfg.rows)

/-- Regeneration of the single row `i` in isolation: only the per-row steps
(the two pickers are rebuilt from the configuration, no other row is
touched). -/
def row_in_isolation (P : Primitives) (cfg : SeedConfig) (i : Nat) :
    Except String ProductRow :=
  match WeightedPicker.ofWeights (cfg.distributions.brands.map Prod.fst)
      (cfg.distributions.brands.map Prod.snd) with
  | .error e => .error e
  | .ok brand_picker =>
    match WeightedPicker.ofWeights (cfg.distributions.categories.map Prod.fst)
        (cfg.distributions.categories.map Prod.snd) with
    | .error e => .error e
    | .ok category_picker =>
      assembleRow P cfg brand_picker category_picker i

/-! ## Template patterns as placeholder/literal segments

A name pattern is "built only from the placeholders and brace-free literal
text" exactly when it is the rendering of a segment list. -/

/-- A pattern segment: a `{name}` placeholder, or literal text. -/
inductive Seg where
  | ph (name : Str)
  | lit (s : Str)
deriving DecidableEq

def renderSeg : Seg → Str
  | .ph n => '{' :: n ++ ['}']
  | .lit s => s

def render (segs : List Seg) : Str := (segs.map renderSeg).flatten

/-- Well-formed segment: neither a placeholder name nor literal text contains
a brace. -/
def SegWf : Seg → Prop
  | .ph n => hasBrace n = false
  | .lit s => hasBrace s = false

/-- The four placeholder names recognized by `base_name_for_index`. -/
def phNames : List Str := ["adj", "noun", "qualifier", "brandish"].map String.data

/-- Segment using only recognized placeholders / brace-free literals. -/
def KnownSeg : Seg → Prop
  | .ph n => n ∈ phNames
  | .lit s => hasBrace s = false

/-- A pattern built only from the four recognized placeholders and brace-free
literal text. -/
def GoodPattern (pat : Str) : Prop :=
  ∃ segs, pat = render segs ∧ ∀ sg ∈ segs, KnownSeg sg

/-- A pattern (of well-formed segments) containing at least one unrecognized
placeholder, e.g. `{color}`. -/
def BadPattern (pat : Str) : Prop :=
  ∃ segs, pat = render segs ∧ (∀ sg ∈ segs, SegWf sg) ∧
    ∃ n, Seg.ph n ∈ segs ∧ n ∉ phNames

/-- Effect of one `str.replace("{name}", rep)` pass on a segment. -/
def substSeg (pname rep : Str) : Seg → Seg
  | .ph n => if n = pname then .lit rep else .ph n
  | .lit s => .lit s

/-! ## Valid configurations

The constraints enforced by `bench/config.py` (`load_seed_config`) plus the
spec-side requirement that each name pattern contains only recognized
placeholders. -/

structure ValidConfig (cfg : SeedConfig) : Prop where
  rows_pos : 0 < cfg.rows
  step_pos : 0 < cfg.timestamps.step_seconds
  brands_ne : cfg.distributions.brands ≠ []
  brands_nonneg : ∀ p ∈ cfg.distributions.brands, 0 ≤ p.2
  brands_sum_pos : 0 < (cfg.distributions.brands.map Prod.snd).sum
  cats_ne : cfg.distributions.categories ≠ []
  cats_nonneg : ∀ p ∈ cfg.distributions.categories, 0 ≤ p.2
  cats_sum_pos : 0 < (cfg.distributions.categories.map Prod.snd).sum
  common_rate_nonneg : 0 ≤ cfg.token_injection.common_row_rate
  common_rate_le : cfg.token_injection.common_row_rate ≤ 1
  rare_rate_nonneg : 0 ≤ cfg.token_injection.rare_row_rate
  rare_rate_le : cfg.token_injection.rare_row_rate ≤ 1
  fields_ne : cfg.token_injection.fields ≠ []
  fields_nonneg : ∀ p ∈ cfg.token_injection.fields, 0 ≤ p.2
  fields_sum_pos : 0 < (cfg.token_injection.fields.map Prod.snd).sum
  dup_rate_nonneg : 0 ≤ cfg.duplicates.near_duplicate_row_rate
  dup_rate_le : cfg.duplicates.near_duplicate_row_rate ≤ 1
  desc_min_pos : 0 < cfg.description_tokens.min
  desc_min_le : cfg.description_tokens.min ≤ cfg.description_tokens.max
  rare_start_pos : 0 < cfg.rare_tokens.start
  rare_start_le : cfg.rare_tokens.start ≤ cfg.rare_tokens.stop
  rare_width_pos : 0 < cfg.rare_tokens.width
  patterns_ne : cfg.templates.name_patterns ≠ []
  patterns_good : ∀ pat ∈ cfg.templates.name_patterns, GoodPattern pat

/-! ## Concrete instances for witnesses -/

/-- A concrete instantiation of the digest primitives (all raw draws `0`,
empty md5 digest); used only to witness the theorems on explicit inputs. -/
def P0 : Primitives := ⟨fun _ _ _ => 0, fun _ _ => []⟩

/-- A small valid configuration (no injections). -/
def cfg0 : SeedConfig where
  seed := 0
  rows := 1
  timestamps := ⟨0, 60⟩
  distributions := ⟨[("b".data, 1)], [("c".data, 1)]⟩
  token_injection := ⟨0, 0, [("description".data, 1)]⟩
  description_tokens := ⟨1, 1⟩
  duplicates := ⟨0⟩
  rare_tokens := ⟨"rare-".data, 1, 1, 6⟩
  templates := ⟨["{adj}".data]⟩

/-- Like `cfg0` but with both injection rates at `1.0`, so both tokens land
in the (weight-1) `description` field of every row. -/
def cfgC3 : SeedConfig where
  seed := 0
  rows := 1
  timestamps := ⟨0, 60⟩
  distributions := ⟨[("b".data, 1)], [("c".data, 1)]⟩
  token_injection := ⟨1, 1, [("description".data, 1)]⟩
  description_tokens := ⟨1, 1⟩
  duplicates := ⟨0⟩
  rare_tokens := ⟨"rare-".data, 1, 1, 6⟩
  templates := ⟨["{adj}".data]⟩

/-- Like `cfg0` but with the single name pattern `"{color}"`, which contains
an unrecognized placeholder. -/
def cfgBad : SeedConfig where
  seed := 0
  rows := 1
  timestamps := ⟨0, 60⟩
  distributions := ⟨[("b".data, 1)], [("c".data, 1)]⟩
  token_injection := ⟨0, 0, [("description".data, 1)]⟩
  description_tokens := ⟨1, 1⟩
  duplicates := ⟨0⟩
  rare_tokens := ⟨"rare-".data, 1, 1, 6⟩
  templates := ⟨["{color}".data]⟩

/-- Like `cfg0` but with the rare-token scenario of the spec:
`prefix="rare-", start=1, end=20000, width=6`. -/
def cfgC9 : SeedConfig where
  seed := 0
  rows := 1
  timestamps := ⟨0, 60⟩
  distributions := ⟨[("b".data, 1)], [("c".data, 1)]⟩
  token_injection := ⟨0, 0, [("description".data, 1)]⟩
  description_tokens := ⟨1, 1⟩
  duplicates := ⟨0⟩
  rare_tokens := ⟨"rare-".data, 1, 20000, 6⟩
  templates := ⟨["{adj}".data]⟩

/-- The single row generated by `P0`/`cfg0`. -/
def row0 : ProductRow :=
  ⟨"----".data, "smoky".data, "b".data, "c".data, "smoky".data, 0, 0⟩

/-- The single row generated by `P0`/`cfgC3`: its description carries both
injected tokens on top of the one description token. -/
def rowC3 : ProductRow :=
  ⟨"----".data, "smoky".data, "b".data, "c".data,
   "rare-000001 organic smoky".data, 0, 0⟩

/-- A whitespace-token: non-empty text with no whitespace character. -/
abbrev Token (t : Str) : Prop := t ≠ [] ∧ ∀ c ∈ t, isWs c = false

/-- `s` joins a list of `m` whitespace-tokens with single spaces. -/
def DescShape (s : Str) (m : Nat) : Prop :=
  ∃ toks, (∀ t ∈ toks, Token t) ∧ s = joinSpL toks ∧ toks.length = m

/-- Vocabulary class of the description token at position `p`
(`build_description`: adjective at `p % 5 = 0`, noun at `p % 5 = 1`,
filler otherwise). -/
def descTokOk (p : Nat) (t : Str) : Prop :=
  if p % 5 = 0 then t ∈ ADJECTIVES
  else if p % 5 = 1 then t ∈ NOUNS
  else t ∈ FILLER_TOKENS

deriving instance DecidableEq for Except

/-! ## Basic facts about the random primitives -/

theorem RNG.randrange_ge (r : RNG) (lo hi : Nat) : lo ≤ (r.randrange lo hi).1 := by
  simp [RNG.randrange, RNG.next]

theorem RNG.randrange_lt (r : RNG) (lo hi : Nat) (h : lo < hi) :
    (r.randrange lo hi).1 < hi := by
  have hm : r.stream r.used % (hi - lo) < hi - lo :=
    Nat.mod_lt _ (by omega)
  simp only [RNG.randrange, RNG.next]
  omega

theorem RNG.randrange_snd (r : RNG) (lo hi : Nat) :
    (r.randrange lo hi).2 = ⟨r.stream, r.used + 1⟩ := rfl

theorem RNG.randint_ge (r : RNG) (lo hi : Nat) : lo ≤ (r.randint lo hi).1 :=
  r.randrange_ge lo (hi + 1)

theorem RNG.randint_le (r : RNG) (lo hi : Nat) (h : lo ≤ hi) :
    (r.randint lo hi).1 ≤ hi := by
  have := r.randrange_lt lo (hi + 1) (by omega)
  simpa [RNG.randint] using Nat.lt_succ_iff.mp this

theorem RNG.random_nonneg (r : RNG) : 0 ≤ r.random.1 := by
  have h2 : (0 : ℚ) < (2 : ℚ) ^ 53 := by positivity
  exact div_nonneg (by positivity) (le_of_lt h2)

theorem RNG.random_lt_one (r : RNG) : r.random.1 < 1 := by
  have h2 : (0 : ℚ) < (2 : ℚ) ^ 53 := by positivity
  rw [RNG.random, div_lt_one h2]
  have hm : r.stream r.used % 2 ^ 53 < 2 ^ 53 := Nat.mod_lt _ (by positivity)
  calc ((r.stream r.used % 2 ^ 53 : Nat) : ℚ) < ((2 ^ 53 : Nat) : ℚ) := by
        exact_mod_cast hm
    _ = (2 : ℚ) ^ 53 := by push_cast; ring

/-! ## Tokens, splitting and joining -/

theorem joinSpL_nil : joinSpL [] = [] := rfl

theorem joinSpL_single (t : Str) : joinSpL [t] = t := by
  simp [joinSpL, List.intercalate]

theorem joinSpL_cons (t : Str) (rest : List Str) (h : rest ≠ []) :
    joinSpL (t :: rest) = t ++ ' ' :: joinSpL rest := by
  obtain ⟨u, us, rfl⟩ : ∃ u us, rest = u :: us := by
    cases rest with
    | nil => exact absurd rfl h
    | cons u us => exact ⟨u, us, rfl⟩
  simp [joinSpL, List.intercalate, List.intersperse]

theorem splitWsAux_token_chunk (t : Str) (s : Str) (acc : Str)
    (ht : ∀ c ∈ t, isWs c = false) :
    splitWsAux (t ++ s) acc = splitWsAux s (t.reverse ++ acc) := by
  induction t generalizing acc with
  | nil => simp
  | cons c t ih =>
    have hc : isWs c = false := ht c (by simp)
    simp only [List.cons_append, splitWsAux, hc, Bool.false_eq_true, if_false,
      List.append_eq]
    rw [ih _ (fun d hd => ht d (by simp [hd]))]
    simp

theorem splitWs_joinSp (toks : List Str) (h : ∀ t ∈ toks, Token t) :
    splitWsL (joinSpL toks) = toks := by
  induction toks with
  | nil => rfl
  | cons t rest ih =>
    have htok : Token t := h t (by simp)
    have hrev : t.reverse ≠ [] := by
      simpa using htok.1
    cases rest with
    | nil =>
      rw [joinSpL_single, splitWsL, ← List.append_nil t,
        splitWsAux_token_chunk t [] [] htok.2]
      simp [splitWsAux, hrev]
    | cons u us =>
      rw [joinSpL_cons t (u :: us) (by simp), splitWsL,
        splitWsAux_token_chunk t (' ' :: joinSpL (u :: us)) [] htok.2]
      have : splitWsAux (' ' :: joinSpL (u :: us)) (t.reverse ++ []) =
          t :: splitWsAux (joinSpL (u :: us)) [] := by
        simp only [List.append_nil, splitWsAux, isWs, if_true]
        simp [hrev]
      rw [this]
      exact congrArg (t :: ·) (ih (fun x hx => h x (by simp [hx])))

theorem splitWsAux_tokens (s : Str) (acc : Str)
    (hacc : ∀ c ∈ acc, isWs c = false) :
    ∀ t ∈ splitWsAux s acc, Token t := by
  induction s generalizing acc with
  | nil =>
    intro t ht
    simp only [splitWsAux] at ht
    by_cases hn : acc = []
    · simp [hn] at ht
    · simp only [hn, if_false] at ht
      simp only [List.mem_singleton] at ht
      subst ht
      exact ⟨by simpa using hn, fun c hc => hacc c (by simpa using hc)⟩
  | cons c cs ih =>
    intro t ht
    simp only [splitWsAux] at ht
    by_cases hws : isWs c
    · simp only [hws, if_true] at ht
      by_cases hn : acc = []
      · simp only [hn, if_true] at ht
        exact ih [] (by simp) t ht
      · simp only [hn, if_false, List.mem_cons] at ht
        rcases ht with rfl | ht
        · exact ⟨by simpa using hn, fun d hd => hacc d (by simpa using hd)⟩
        · exact ih [] (by simp) t ht
    · simp only [hws, if_false] at ht
      refine ih (c :: acc) ?_ t ht
      intro d hd
      rcases List.mem_cons.mp hd with rfl | hd
      · simpa using hws
      · exact hacc d hd

theorem splitWsL_tokens (s : Str) : ∀ t ∈ splitWsL s, Token t :=
  splitWsAux_tokens s [] (by simp)

/-! ## Decimal digits and zero padding -/

theorem digitChar_mem (m : Nat) (h : m < 10) :
    Nat.digitChar m ∈ "0123456789".data := by
  interval_cases m <;> decide

theorem digitChar_val (m : Nat) (h : m < 10) :
    (Nat.digitChar m).toNat - 48 = m := by
  interval_cases m <;> decide

theorem natDigitsFuel_chars (fuel : Nat) :
    ∀ m, m < fuel → ∀ c ∈ natDigitsFuel fuel m, c ∈ "0123456789".data := by
  induction fuel with
  | zero => intro m hm; omega
  | succ fuel ih =>
    intro m hm c hc
    by_cases h10 : m < 10
    · simp only [natDigitsFuel, h10, if_true, List.mem_singleton] at hc
      exact hc ▸ digitChar_mem m h10
    · have hdiv : m / 10 < m := Nat.div_lt_self (by omega) (by omega)
      simp only [natDigitsFuel, h10, if_false, List.mem_append,
        List.mem_singleton] at hc
      rcases hc with hc | rfl
      · exact ih (m / 10) (by omega) c hc
      · exact digitChar_mem (m % 10) (Nat.mod_lt _ (by omega))

theorem natDigitsFuel_ne_nil (fuel m : Nat) (h : m < fuel) :
    natDigitsFuel fuel m ≠ [] := by
  cases fuel with
  | zero => omega
  | succ fuel =>
    by_cases h10 : m < 10 <;> simp [natDigitsFuel, h10]

theorem natDigitsFuel_length (fuel : Nat) :
    ∀ m k, m < fuel → m < 10 ^ k → 0 < k →
      (natDigitsFuel fuel m).length ≤ k := by
  induction fuel with
  | zero => intro m k hm; omega
  | succ fuel ih =>
    intro m k hm hk hk0
    by_cases h10 : m < 10
    · simp only [natDigitsFuel, h10, if_true, List.length_singleton]
      omega
    · have hdiv : m / 10 < m := Nat.div_lt_self (by omega) (by omega)
      obtain ⟨k', rfl⟩ : ∃ k', k = k' + 1 := ⟨k - 1, by omega⟩
      have hk' : 0 < k' := by
        rcases Nat.eq_zero_or_pos k' with rfl | h
        · simp at hk; omega
        · exact h
      have hmk : m / 10 < 10 ^ k' := by
        rw [Nat.div_lt_iff_lt_mul (by omega : (0:Nat) < 10)]
        calc m < 10 ^ (k' + 1) := hk
          _ = 10 ^ k' * 10 := by ring
      simp only [natDigitsFuel, h10, if_false, List.length_append,
        List.length_singleton]
      have := ih (m / 10) k' (by omega) hmk hk'
      omega

theorem natDigitsFuel_val (fuel : Nat) :
    ∀ m, m < fuel → ∀ a : Nat,
      (natDigitsFuel fuel m).foldl (fun x c => 10 * x + (c.toNat - 48)) a =
        a * 10 ^ (natDigitsFuel fuel m).length + m := by
  induction fuel with
  | zero => intro m hm; omega
  | succ fuel ih =>
    intro m hm a
    by_cases h10 : m < 10
    · simp only [natDigitsFuel, h10, if_true, List.foldl_cons, List.foldl_nil,
        List.length_singleton, pow_one, digitChar_val m h10]
      ring
    · have hdiv : m / 10 < m := Nat.div_lt_self (by omega) (by omega)
      simp only [natDigitsFuel, h10, if_false, List.foldl_append,
        List.foldl_cons, List.foldl_nil, List.length_append,
        List.length_singleton]
      rw [ih (m / 10) (by omega) a, digitChar_val (m % 10) (Nat.mod_lt _ (by omega))]
      have hmod := Nat.div_add_mod m 10
      ring_nf
      omega

theorem natDigits_ne_nil (n : Nat) : natDigits n ≠ [] :=
  natDigitsFuel_ne_nil (n + 1) n (by omega)

theorem natDigits_chars (n : Nat) : ∀ c ∈ natDigits n, c ∈ "0123456789".data :=
  natDigitsFuel_chars (n + 1) n (by omega)

theorem natDigits_length_le (n k : Nat) (hk : 0 < k) (h : n < 10 ^ k) :
    (natDigits n).length ≤ k :=
  natDigitsFuel_length (n + 1) n k (by omega) h hk

theorem digitsVal_natDigits (n : Nat) : digitsVal (natDigits n) = n := by
  have := natDigitsFuel_val (n + 1) n (by omega) 0
  simpa [digitsVal, natDigits] using this

theorem foldl_zeros (j : Nat) :
    (List.replicate j '0').foldl (fun x c => 10 * x + (c.toNat - 48)) 0 = 0 := by
  induction j with
  | zero => rfl
  | succ j ih => simpa [List.replicate_succ] using ih

theorem digitsVal_padNum (w n : Nat) : digitsVal (padNum w n) = n := by
  rw [padNum, digitsVal, List.foldl_append, foldl_zeros, ← digitsVal]
  exact digitsVal_natDigits n

theorem padNum_length (w n : Nat) : (padNum w n).length = max w (natDigits n).length := by
  simp only [padNum, List.length_append, List.length_replicate]
  omega

theorem padNum_ne_nil (w n : Nat) : padNum w n ≠ [] := by
  simp only [padNum]
  intro h
  exact natDigits_ne_nil n (List.append_eq_nil.mp h).2

theorem padNum_chars (w n : Nat) : ∀ c ∈ padNum w n, c ∈ "0123456789".data := by
  intro c hc
  rcases List.mem_append.mp hc with hc | hc
  · have : c = '0' := List.eq_of_mem_replicate hc
    subst this; decide
  · exact natDigits_chars n c hc

/-! ## Tokenhood of the injected vocabulary -/

theorem getD_mem {α : Type _} (l : List α) (i : Nat) (d : α)
    (h : i < l.length) : l.getD i d ∈ l := by
  have he : l.getD i d = l[i] := by
    simp [List.getD_eq_getElem?_getD, List.getElem?_eq_getElem h]
  rw [he]
  exact List.getElem_mem h

theorem common_tokens_token : ∀ t ∈ COMMON_TOKENS, Token t := by decide

theorem adjectives_token : ∀ t ∈ ADJECTIVES, Token t := by decide

theorem nouns_token : ∀ t ∈ NOUNS, Token t := by decide

theorem filler_tokens_token : ∀ t ∈ FILLER_TOKENS, Token t := by decide

theorem digit_chars_token : ∀ c ∈ "0123456789".data, isWs c = false := by decide

theorem commonTokenDraw_token (rng : RNG) : Token (commonTokenDraw rng).1 := by
  refine common_tokens_token _ (getD_mem _ _ _ ?_)
  exact RNG.randrange_lt rng 0 COMMON_TOKENS.length (by decide)

theorem rare_token_token (cfg : SeedConfig) (rng : RNG)
    (hpfx : ∀ c ∈ cfg.rare_tokens.pfx, isWs c = false) :
    Token (rare_token cfg rng).1 := by
  constructor
  · simp only [rare_token]
    intro h
    exact padNum_ne_nil cfg.rare_tokens.width _ (List.append_eq_nil.mp h).2
  · intro c hc
    simp only [rare_token] at hc
    rcases List.mem_append.mp hc with hc | hc
    · exact hpfx c hc
    · exact digit_chars_token c (padNum_chars _ _ c hc)

/-! ## Description shape through injection -/

theorem DescShape_count (s : Str) (m : Nat) (h : DescShape s m) :
    (splitWsL s).length = m := by
  obtain ⟨toks, htoks, rfl, rfl⟩ := h
  rw [splitWs_joinSp toks htoks]

theorem inject_DescShape (s tok : Str) (rng : RNG) (m : Nat)
    (hs : DescShape s m) (ht : Token tok) :
    DescShape (inject_token_into_text s tok rng).1 (m + 1) := by
  obtain ⟨toks, htoks, rfl, rfl⟩ := hs
  have hsplit : splitWsL (joinSpL toks) = toks := splitWs_joinSp toks htoks
  rw [inject_token_into_text]
  by_cases h0 : toks = []
  · subst h0
    simp only [hsplit, if_true]
    exact ⟨[tok], by simpa using ht, (joinSpL_single tok).symm, rfl⟩
  · simp only [hsplit, h0, if_false]
    have hpos : (rng.randrange 0 (toks.length + 1)).1 < toks.length + 1 :=
      RNG.randrange_lt rng 0 (toks.length + 1) (by omega)
    refine ⟨toks.insertIdx (rng.randrange 0 (toks.length + 1)).1 tok, ?_, rfl, ?_⟩
    · intro t htmem
      rcases (List.mem_insertIdx (by omega)).mp htmem with rfl | htmem
      · exact ht
      · exact htoks t htmem
    · rw [List.length_insertIdx _ _ (by omega)]

theorem applyInjection_desc (st : RowState) (tok field : Str) (rng : RNG)
    (m : Nat) (htok : Token tok) (hdesc : DescShape st.description m) :
    DescShape (applyInjection st tok field rng).1.description m ∨
      DescShape (applyInjection st tok field rng).1.description (m + 1) := by
  unfold applyInjection
  split_ifs <;> simp only
  · exact .inl hdesc
  · exact .inr (inject_DescShape _ _ _ _ hdesc htok)
  · exact .inl hdesc
  · exact .inl hdesc
  · exact .inl hdesc

theorem injectStep_desc (cfg : SeedConfig) (rate : ℚ) (tokDraw : RNG → Str × RNG)
    (st : RowState) (rng : RNG) (st' : RowState) (rng' : RNG) (m : Nat)
    (htok : ∀ r : RNG, Token (tokDraw r).1)
    (hdesc : DescShape st.description m)
    (h : injectStep cfg rate tokDraw st rng = .ok (st', rng')) :
    DescShape st'.description m ∨ DescShape st'.description (m + 1) := by
  unfold injectStep at h
  by_cases hroll : rng.random.1 < rate
  · simp only [hroll, if_true] at h
    cases hcf : choose_injection_field cfg (tokDraw rng.random.2).2 with
    | error e => rw [hcf] at h; exact absurd h (by simp)
    | ok fd =>
      rw [hcf] at h
      simp only [Except.ok.injEq] at h
      have := applyInjection_desc st (tokDraw rng.random.2).1 fd.1 fd.2 m
        (htok _) hdesc
      rw [h] at this
      exact this
  · simp only [hroll, if_false, Except.ok.injEq] at h
    exact .inl (h ▸ hdesc : DescShape (st', rng').1.description m)

/-! ## The description builder -/

theorem getD_append_left {α : Type _} (l l' : List α) (i : Nat) (d : α)
    (h : i < l.length) : (l ++ l').getD i d = l.getD i d := by
  simp [List.getD_eq_getElem?_getD, List.getElem?_append_left h]

theorem getD_append_self {α : Type _} (l : List α) (x : α) (d : α) :
    (l ++ [x]).getD l.length d = x := by
  simp [List.getD_eq_getElem?_getD, List.getElem?_append_right (Nat.le_refl _)]

theorem buildDescGo_spec (missing : Nat) :
    ∀ (tokens : List Str) (rng : RNG),
      (∀ t ∈ tokens, Token t) →
      (∀ p, p < tokens.length → descTokOk p (tokens.getD p [])) →
      (buildDescGo missing tokens rng).1.length = tokens.length + missing ∧
        (∀ t ∈ (buildDescGo missing tokens rng).1, Token t) ∧
        (∀ p, p < (buildDescGo missing tokens rng).1.length →
          descTokOk p ((buildDescGo missing tokens rng).1.getD p [])) := by
  induction missing with
  | zero => intro tokens rng h1 h2; exact ⟨by simp [buildDescGo], h1, h2⟩
  | succ missing ih =>
    intro tokens rng h1 h2
    set tok :=
      (if tokens.length % 5 = 0 then
        ((ADJECTIVES.getD (rng.randrange 0 ADJECTIVES.length).1 [],
          (rng.randrange 0 ADJECTIVES.length).2) : Str × RNG)
      else if tokens.length % 5 = 1 then
        (NOUNS.getD (rng.randrange 0 NOUNS.length).1 [],
          (rng.randrange 0 NOUNS.length).2)
      else
        (FILLER_TOKENS.getD (rng.randrange 0 FILLER_TOKENS.length).1 [],
          (rng.randrange 0 FILLER_TOKENS.length).2)) with htok
    have hstep : buildDescGo (missing + 1) tokens rng =
        buildDescGo missing (tokens ++ [tok.1]) tok.2 := by
      rw [buildDescGo, htok]
    have htok_tok : Token tok.1 := by
      rw [htok]
      split_ifs
      · exact adjectives_token _ (getD_mem _ _ _
          (RNG.randrange_lt rng 0 ADJECTIVES.length (by decide)))
      · exact nouns_token _ (getD_mem _ _ _
          (RNG.randrange_lt rng 0 NOUNS.length (by decide)))
      · exact filler_tokens_token _ (getD_mem _ _ _
          (RNG.randrange_lt rng 0 FILLER_TOKENS.length (by decide)))
    have htok_ok : descTokOk tokens.length tok.1 := by
      rw [htok]
      unfold descTokOk
      split_ifs with hm0 hm1
      · exact getD_mem _ _ _ (RNG.randrange_lt rng 0 ADJECTIVES.length (by decide))
      · exact getD_mem _ _ _ (RNG.randrange_lt rng 0 NOUNS.length (by decide))
      · exact getD_mem _ _ _ (RNG.randrange_lt rng 0 FILLER_TOKENS.length (by decide))
    rw [hstep]
    have h1' : ∀ t ∈ tokens ++ [tok.1], Token t := by
      intro t ht
      rcases List.mem_append.mp ht with ht | ht
      · exact h1 t ht
      · rw [List.mem_singleton.mp ht]; exact htok_tok
    have h2' : ∀ p, p < (tokens ++ [tok.1]).length →
        descTokOk p ((tokens ++ [tok.1]).getD p []) := by
      intro p hp
      rw [List.length_append, List.length_singleton] at hp
      rcases Nat.lt_or_ge p tokens.length with hlt | hge
      · rw [getD_append_left _ _ _ _ hlt]
        exact h2 p hlt
      · have hpe : p = tokens.length := by omega
        subst hpe
        rw [getD_append_self]
        exact htok_ok
    have := ih (tokens ++ [tok.1]) tok.2 h1' h2'
    refine ⟨?_, this.2.1, this.2.2⟩
    rw [this.1]
    simp
    omega

theorem build_description_spec (cfg : SeedConfig) (i : Nat) (rng : RNG)
    (hmm : cfg.description_tokens.min ≤ cfg.description_tokens.max) :
    ∃ target,
      cfg.description_tokens.min ≤ target ∧
      target ≤ cfg.description_tokens.max ∧
      target = (rng.randint cfg.description_tokens.min
        cfg.description_tokens.max).1 ∧
      DescShape (build_description cfg i rng).1 target ∧
      (∀ p, p < (splitWsL (build_description cfg i rng).1).length →
        descTokOk p ((splitWsL (build_description cfg i rng).1).getD p [])) := by
  set d0 := rng.randint cfg.description_tokens.min cfg.description_tokens.max
    with hd0
  have hb := buildDescGo_spec d0.1 [] d0.2 (by simp) (by simp)
  have hshape : DescShape (build_description cfg i rng).1 d0.1 := by
    refine ⟨(buildDescGo d0.1 [] d0.2).1, hb.2.1, ?_, by simpa using hb.1⟩
    rw [build_description]
  have hsplit : splitWsL (build_description cfg i rng).1 =
      (buildDescGo d0.1 [] d0.2).1 := by
    rw [build_description]
    exact splitWs_joinSp _ hb.2.1
  refine ⟨d0.1, ?_, ?_, rfl, hshape, ?_⟩
  · exact RNG.randint_ge rng _ _
  · exact RNG.randint_le rng _ _ hmm
  · intro p hp
    rw [hsplit] at hp ⊢
    exact hb.2.2 p hp

/-! ## String replacement and the template pipeline -/

theorem replaceFuel_congr (old rep : Str) :
    ∀ f1 f2 s, s.length ≤ f1 → s.length ≤ f2 →
      replaceFuel old rep f1 s = replaceFuel old rep f2 s := by
  intro f1
  induction f1 with
  | zero =>
    intro f2 s h1 _
    have hs : s = [] := List.eq_nil_of_length_eq_zero (by omega)
    subst hs
    cases f2 <;> rfl
  | succ f1 ih =>
    intro f2 s h1 h2
    cases s with
    | nil => cases f2 <;> rfl
    | cons c cs =>
      cases f2 with
      | zero => simp at h2
      | succ f2 =>
        simp only [replaceFuel]
        by_cases hcond : old.isPrefixOf (c :: cs) ∧ old ≠ []
        · rw [if_pos hcond, if_pos hcond]
          have hold : 1 ≤ old.length := by
            cases old with
            | nil => exact absurd rfl hcond.2
            | cons _ _ => simp
          have hd : ((c :: cs).drop old.length).length ≤ f1 := by
            simp only [List.length_drop, List.length_cons] at *
            omega
          have hd2 : ((c :: cs).drop old.length).length ≤ f2 := by
            simp only [List.length_drop, List.length_cons] at *
            omega
          rw [ih f2 _ hd hd2]
        · rw [if_neg hcond, if_neg hcond,
            ih f2 cs (by simpa using h1) (by simpa using h2)]

theorem replaceL_pos (old rep s : Str) (h1 : old.isPrefixOf s = true)
    (h2 : old ≠ []) (h3 : s ≠ []) :
    replaceL old rep s = rep ++ replaceL old rep (s.drop old.length) := by
  cases s with
  | nil => exact absurd rfl h3
  | cons c cs =>
    show replaceFuel old rep (cs.length + 1) (c :: cs) = _
    simp only [replaceFuel]
    rw [if_pos ⟨h1, h2⟩]
    congr 1
    have hold : 1 ≤ old.length := by
      cases old with
      | nil => exact absurd rfl h2
      | cons _ _ => simp
    apply replaceFuel_congr
    · simp only [List.length_drop, List.length_cons]
      omega
    · exact Nat.le_refl _

theorem replaceL_neg (old rep : Str) (c : Char) (cs : Str)
    (h : ¬(old.isPrefixOf (c :: cs) = true ∧ old ≠ [])) :
    replaceL old rep (c :: cs) = c :: replaceL old rep cs := by
  show replaceFuel old rep (cs.length + 1) (c :: cs) = _
  simp only [replaceFuel]
  rw [if_neg h]
  rfl

theorem isPrefixOf_append_self (l t : Str) : l.isPrefixOf (l ++ t) = true := by
  induction l with
  | nil => simp [List.isPrefixOf]
  | cons c cs ih => simpa [List.isPrefixOf] using ih

theorem hasBrace_false_iff (s : Str) :
    hasBrace s = false ↔ '{' ∉ s ∧ '}' ∉ s := by
  simp [hasBrace]

theorem hasBrace_true_of_mem (s : Str) (h : '{' ∈ s) : hasBrace s = true := by
  simp [hasBrace, h]

theorem replaceL_skip (pt rep : Str) (u t : Str) (hu : '{' ∉ u) :
    replaceL ('{' :: pt) rep (u ++ t) = u ++ replaceL ('{' :: pt) rep t := by
  induction u with
  | nil => simp
  | cons c u ih =>
    have hc : ('{' : Char) ≠ c := by
      intro h
      exact hu (h ▸ List.mem_cons_self c u)
    have hpre : ('{' :: pt).isPrefixOf (c :: (u ++ t)) = false := by
      simp only [List.isPrefixOf, Bool.and_eq_false_iff]
      left
      exact beq_eq_false_iff_ne.mpr hc
    rw [List.cons_append, replaceL_neg _ _ _ _ (by rw [hpre]; simp),
      ih (fun h => hu (List.mem_cons_of_mem _ h)), List.cons_append]

theorem close_prefix_eq : ∀ (a b t : Str), '}' ∉ a → '}' ∉ b →
    (a ++ ['}']).isPrefixOf (b ++ '}' :: t) = true → a = b := by
  intro a
  induction a with
  | nil =>
    intro b t _ hb h
    cases b with
    | nil => rfl
    | cons d bs =>
      simp only [List.nil_append, List.cons_append, List.isPrefixOf,
        Bool.and_eq_true, beq_iff_eq] at h
      exact absurd (h.1 ▸ List.mem_cons_self d bs) hb
  | cons c as ih =>
    intro b t ha hb h
    cases b with
    | nil =>
      simp only [List.cons_append, List.nil_append, List.isPrefixOf,
        Bool.and_eq_true, beq_iff_eq] at h
      exact absurd (h.1.symm ▸ List.mem_cons_self c as) ha
    | cons d bs =>
      simp only [List.cons_append, List.isPrefixOf, Bool.and_eq_true,
        beq_iff_eq] at h
      obtain ⟨rfl, h2⟩ := h
      rw [ih bs t (fun hm => ha (List.mem_cons_of_mem _ hm))
        (fun hm => hb (List.mem_cons_of_mem _ hm)) h2]

theorem render_nil : render [] = [] := rfl

theorem render_cons (sg : Seg) (segs : List Seg) :
    render (sg :: segs) = renderSeg sg ++ render segs := by
  simp [render]

theorem substSeg_ph_ne (p r nm : Str) (h : nm ≠ p) :
    substSeg p r (.ph nm) = .ph nm := by
  simp [substSeg, h]

theorem replaceL_render (pname rep : Str) (hpn : hasBrace pname = false) :
    ∀ segs, (∀ sg ∈ segs, SegWf sg) →
      replaceL ('{' :: (pname ++ ['}'])) rep (render segs) =
        render (segs.map (substSeg pname rep)) := by
  intro segs
  induction segs with
  | nil => intro _; rfl
  | cons sg rest ih =>
    intro hwf
    have hwfs : SegWf sg := hwf sg (by simp)
    have hwfr : ∀ s ∈ rest, SegWf s := fun s hs => hwf s (by simp [hs])
    have hpn' := (hasBrace_false_iff pname).mp hpn
    cases sg with
    | ph n =>
      have hn' := (hasBrace_false_iff n).mp (hwfs : hasBrace n = false)
      by_cases hn : n = pname
      · subst hn
        rw [render_cons]
        have hself : ('{' :: (n ++ ['}'])).isPrefixOf
            (('{' :: (n ++ ['}'])) ++ render rest) = true :=
          isPrefixOf_append_self _ _
        calc replaceL ('{' :: (n ++ ['}'])) rep
              (renderSeg (Seg.ph n) ++ render rest)
            = rep ++ replaceL ('{' :: (n ++ ['}']))
                rep ((('{' :: (n ++ ['}'])) ++ render rest).drop
                  ('{' :: (n ++ ['}'])).length) :=
              replaceL_pos _ _ _ hself (by simp) (by simp [renderSeg])
          _ = rep ++ replaceL ('{' :: (n ++ ['}'])) rep (render rest) := by
              rw [List.drop_left]
          _ = render (List.map (substSeg n rep) (Seg.ph n :: rest)) := by
              rw [ih hwfr, List.map_cons, render_cons]
              simp [substSeg, renderSeg]
      · rw [render_cons]
        have hshape : renderSeg (Seg.ph n) ++ render rest =
            '{' :: (n ++ ('}' :: render rest)) := by
          simp [renderSeg]
        rw [hshape]
        have hnp : ¬(('{' :: (pname ++ ['}'])).isPrefixOf
            ('{' :: (n ++ ('}' :: render rest))) = true) := by
          intro hp
          have hp' : (pname ++ ['}']).isPrefixOf (n ++ '}' :: render rest)
              = true := by
            simp only [List.isPrefixOf, Bool.and_eq_true, beq_iff_eq] at hp
            exact hp.2
          exact hn (close_prefix_eq pname n (render rest) hpn'.2 hn'.2 hp').symm
        rw [replaceL_neg _ _ _ _ (fun hc => hnp hc.1)]
        have hu : '{' ∉ n ++ ['}'] := by
          intro hmem
          rcases List.mem_append.mp hmem with hmem | hmem
          · exact hn'.1 hmem
          · simp at hmem
        have hskip := replaceL_skip (pname ++ ['}']) rep (n ++ ['}'])
          (render rest) hu
        calc '{' :: replaceL ('{' :: (pname ++ ['}'])) rep
              (n ++ ('}' :: render rest))
            = '{' :: ((n ++ ['}']) ++
                replaceL ('{' :: (pname ++ ['}'])) rep (render rest)) := by
              rw [show n ++ ('}' :: render rest) = (n ++ ['}']) ++ render rest
                by simp]
              exact congrArg _ hskip
          _ = render (List.map (substSeg pname rep) (Seg.ph n :: rest)) := by
              rw [ih hwfr, List.map_cons, render_cons,
                substSeg_ph_ne _ _ _ hn]
              simp [renderSeg]
    | lit s =>
      rw [render_cons]
      have hs1 : '{' ∉ s := ((hasBrace_false_iff s).mp hwfs).1
      calc replaceL ('{' :: (pname ++ ['}'])) rep (renderSeg (Seg.lit s) ++
            render rest)
          = s ++ replaceL ('{' :: (pname ++ ['}'])) rep (render rest) :=
            replaceL_skip (pname ++ ['}']) rep s (render rest) hs1
        _ = render (List.map (substSeg pname rep) (Seg.lit s :: rest)) := by
            rw [ih hwfr, List.map_cons, render_cons]
            rfl

theorem substSeg_wf (pname rep : Str) (sg : Seg) (hrep : hasBrace rep = false)
    (h : SegWf sg) : SegWf (substSeg pname rep sg) := by
  cases sg with
  | ph n =>
    simp only [substSeg]
    split_ifs
    · exact hrep
    · exact h
  | lit s => exact h

theorem subst4_known (a n q b : Str) (ha : hasBrace a = false)
    (hn : hasBrace n = false) (hq : hasBrace q = false)
    (hb : hasBrace b = false) (sg : Seg) (h : KnownSeg sg) :
    ∃ s, substSeg "brandish".data b (substSeg "qualifier".data q
      (substSeg "noun".data n (substSeg "adj".data a sg))) = .lit s ∧
      hasBrace s = false := by
  cases sg with
  | lit s => exact ⟨s, rfl, h⟩
  | ph nm =>
    have h'' : nm ∈ phNames := h
    have h' : nm = "adj".data ∨ nm = "noun".data ∨ nm = "qualifier".data ∨
        nm = "brandish".data := by
      simpa [phNames] using h''
    rcases h' with rfl | rfl | rfl | rfl
    · exact ⟨a, rfl, ha⟩
    · exact ⟨n, rfl, hn⟩
    · exact ⟨q, rfl, hq⟩
    · exact ⟨b, rfl, hb⟩

theorem subst4_unknown (a n q b nm : Str) (hnm : nm ∉ phNames) :
    substSeg "brandish".data b (substSeg "qualifier".data q
      (substSeg "noun".data n (substSeg "adj".data a (.ph nm)))) = .ph nm := by
  have h' : ¬(nm = "adj".data ∨ nm = "noun".data ∨ nm = "qualifier".data ∨
      nm = "brandish".data) := by
    simpa [phNames] using hnm
  push_neg at h'
  rw [substSeg_ph_ne _ _ _ h'.1, substSeg_ph_ne _ _ _ h'.2.1,
    substSeg_ph_ne _ _ _ h'.2.2.1, substSeg_ph_ne _ _ _ h'.2.2.2]

theorem KnownSeg_wf (sg : Seg) (h : KnownSeg sg) : SegWf sg := by
  cases sg with
  | lit s => exact h
  | ph n =>
    have h'' : n ∈ phNames := h
    have h' : n = "adj".data ∨ n = "noun".data ∨ n = "qualifier".data ∨
        n = "brandish".data := by
      simpa [phNames] using h''
    rcases h' with rfl | rfl | rfl | rfl
    · show hasBrace "adj".data = false
      decide
    · show hasBrace "noun".data = false
      decide
    · show hasBrace "qualifier".data = false
      decide
    · show hasBrace "brandish".data = false
      decide

theorem render_no_brace (segs : List Seg)
    (h : ∀ sg ∈ segs, ∃ s, sg = .lit s ∧ hasBrace s = false) :
    hasBrace (render segs) = false := by
  induction segs with
  | nil => decide
  | cons sg rest ih =>
    obtain ⟨s, rfl, hs⟩ := h sg (by simp)
    rw [render_cons]
    rw [hasBrace_false_iff]
    have h1 := (hasBrace_false_iff s).mp hs
    have h2 := (hasBrace_false_iff (render rest)).mp
      (ih (fun x hx => h x (by simp [hx])))
    constructor
    · intro hm
      rcases List.mem_append.mp hm with hm | hm
      · exact h1.1 hm
      · exact h2.1 hm
    · intro hm
      rcases List.mem_append.mp hm with hm | hm
      · exact h1.2 hm
      · exact h2.2 hm

theorem render_brace_of_ph (segs : List Seg) (nm : Str)
    (h : Seg.ph nm ∈ segs) : hasBrace (render segs) = true := by
  apply hasBrace_true_of_mem
  rw [render, List.mem_flatten]
  exact ⟨renderSeg (.ph nm), List.mem_map_of_mem renderSeg h, by simp [renderSeg]⟩

theorem adjectives_no_brace : ∀ w ∈ ADJECTIVES, hasBrace w = false := by decide

theorem nouns_no_brace : ∀ w ∈ NOUNS, hasBrace w = false := by decide

theorem qualifiers_no_brace : ∀ w ∈ QUALIFIERS, hasBrace w = false := by decide

theorem base_name_eq (P : Primitives) (cfg : SeedConfig) (i : Nat)
    (segs : List Seg) (hwf : ∀ sg ∈ segs, SegWf sg)
    (hpat : cfg.templates.name_patterns.getD
      ((row_rng P cfg.seed i).randrange 0
        cfg.templates.name_patterns.length).1 [] = render segs) :
    ∃ a n q b : Str, hasBrace a = false ∧ hasBrace n = false ∧
      hasBrace q = false ∧ hasBrace b = false ∧
      base_name_for_index P cfg i =
        (if hasBrace (render (segs.map (fun sg => substSeg "brandish".data b
            (substSeg "qualifier".data q (substSeg "noun".data n
              (substSeg "adj".data a sg)))))) = true then
          .error "Unknown template placeholder in name pattern"
        else .ok (render (segs.map (fun sg => substSeg "brandish".data b
            (substSeg "qualifier".data q (substSeg "noun".data n
              (substSeg "adj".data a sg))))))) := by
  simp only [base_name_for_index]
  rw [hpat]
  set r0 := (row_rng P cfg.seed i).randrange 0
    cfg.templates.name_patterns.length with hr0
  set r1 := r0.2.randrange 0 ADJECTIVES.length with hr1
  set r2 := r1.2.randrange 0 NOUNS.length with hr2
  set r3 := r2.2.randrange 0 QUALIFIERS.length with hr3
  set r4 := r3.2.randrange 0 ADJECTIVES.length with hr4
  have hA : hasBrace (ADJECTIVES.getD r1.1 []) = false :=
    adjectives_no_brace _ (getD_mem _ _ _
      (RNG.randrange_lt _ 0 ADJECTIVES.length (by decide)))
  have hN : hasBrace (NOUNS.getD r2.1 []) = false :=
    nouns_no_brace _ (getD_mem _ _ _
      (RNG.randrange_lt _ 0 NOUNS.length (by decide)))
  have hQ : hasBrace (QUALIFIERS.getD r3.1 []) = false :=
    qualifiers_no_brace _ (getD_mem _ _ _
      (RNG.randrange_lt _ 0 QUALIFIERS.length (by decide)))
  have hB : hasBrace (ADJECTIVES.getD r4.1 []) = false :=
    adjectives_no_brace _ (getD_mem _ _ _
      (RNG.randrange_lt _ 0 ADJECTIVES.length (by decide)))
  refine ⟨ADJECTIVES.getD r1.1 [], NOUNS.getD r2.1 [],
    QUALIFIERS.getD r3.1 [], ADJECTIVES.getD r4.1 [], hA, hN, hQ, hB, ?_⟩
  have hwf1 : ∀ sg ∈ segs, SegWf sg := hwf
  have e1 : replaceL "{adj}".data (ADJECTIVES.getD r1.1 []) (render segs) =
      render (segs.map (substSeg "adj".data (ADJECTIVES.getD r1.1 []))) := by
    rw [show "{adj}".data = '{' :: ("adj".data ++ ['}']) from rfl]
    exact replaceL_render _ _ (by decide) segs hwf1
  have hwf2 : ∀ sg ∈ segs.map (substSeg "adj".data (ADJECTIVES.getD r1.1 [])),
      SegWf sg := by
    intro sg hsg
    obtain ⟨x, hx, rfl⟩ := List.mem_map.mp hsg
    exact substSeg_wf _ _ _ hA (hwf1 x hx)
  have e2 : replaceL "{noun}".data (NOUNS.getD r2.1 [])
      (render (segs.map (substSeg "adj".data (ADJECTIVES.getD r1.1 [])))) =
      render ((segs.map (substSeg "adj".data (ADJECTIVES.getD r1.1 []))).map
        (substSeg "noun".data (NOUNS.getD r2.1 []))) := by
    rw [show "{noun}".data = '{' :: ("noun".data ++ ['}']) from rfl]
    exact replaceL_render _ _ (by decide) _ hwf2
  have hwf3 : ∀ sg ∈ (segs.map (substSeg "adj".data
      (ADJECTIVES.getD r1.1 []))).map (substSeg "noun".data
        (NOUNS.getD r2.1 [])), SegWf sg := by
    intro sg hsg
    obtain ⟨x, hx, rfl⟩ := List.mem_map.mp hsg
    exact substSeg_wf _ _ _ hN (hwf2 x hx)
  have e3 : replaceL "{qualifier}".data (QUALIFIERS.getD r3.1 [])
      (render ((segs.map (substSeg "adj".data (ADJECTIVES.getD r1.1 []))).map
        (substSeg "noun".data (NOUNS.getD r2.1 [])))) =
      render (((segs.map (substSeg "adj".data (ADJECTIVES.getD r1.1 []))).map
        (substSeg "noun".data (NOUNS.getD r2.1 []))).map
          (substSeg "qualifier".data (QUALIFIERS.getD r3.1 []))) := by
    rw [show "{qualifier}".data = '{' :: ("qualifier".data ++ ['}']) from rfl]
    exact replaceL_render _ _ (by decide) _ hwf3
  have hwf4 : ∀ sg ∈ ((segs.map (substSeg "adj".data
      (ADJECTIVES.getD r1.1 []))).map (substSeg "noun".data
        (NOUNS.getD r2.1 []))).map (substSeg "qualifier".data
          (QUALIFIERS.getD r3.1 [])), SegWf sg := by
    intro sg hsg
    obtain ⟨x, hx, rfl⟩ := List.mem_map.mp hsg
    exact substSeg_wf _ _ _ hQ (hwf3 x hx)
  have e4 : replaceL "{brandish}".data (ADJECTIVES.getD r4.1 [])
      (render (((segs.map (substSeg "adj".data (ADJECTIVES.getD r1.1 []))).map
        (substSeg "noun".data (NOUNS.getD r2.1 []))).map
          (substSeg "qualifier".data (QUALIFIERS.getD r3.1 [])))) =
      render ((((segs.map (substSeg "adj".data (ADJECTIVES.getD r1.1 []))).map
        (substSeg "noun".data (NOUNS.getD r2.1 []))).map
          (substSeg "qualifier".data (QUALIFIERS.getD r3.1 []))).map
            (substSeg "brandish".data (ADJECTIVES.getD r4.1 []))) := by
    rw [show "{brandish}".data = '{' :: ("brandish".data ++ ['}']) from rfl]
    exact replaceL_render _ _ (by decide) _ hwf4
  rw [e1, e2, e3, e4, List.map_map, List.map_map, List.map_map]
  rfl

theorem base_name_ok_of_good (P : Primitives) (cfg : SeedConfig) (i : Nat)
    (hgood : GoodPattern (cfg.templates.name_patterns.getD
      ((row_rng P cfg.seed i).randrange 0
        cfg.templates.name_patterns.length).1 [])) :
    ∃ s, base_name_for_index P cfg i = .ok s := by
  obtain ⟨segs, hpat, hknown⟩ := hgood
  obtain ⟨a, n, q, b, ha, hn, hq, hb, heq⟩ := base_name_eq P cfg i segs
    (fun sg hs => KnownSeg_wf sg (hknown sg hs)) hpat
  have hnb : hasBrace (render (segs.map (fun sg => substSeg "brandish".data b
      (substSeg "qualifier".data q (substSeg "noun".data n
        (substSeg "adj".data a sg)))))) = false := by
    apply render_no_brace
    intro sg hsg
    obtain ⟨x, hx, rfl⟩ := List.mem_map.mp hsg
    exact subst4_known a n q b ha hn hq hb x (hknown x hx)
  rw [heq, if_neg (by rw [hnb]; simp)]
  exact ⟨_, rfl⟩

theorem base_name_error_of_bad (P : Primitives) (cfg : SeedConfig) (i : Nat)
    (hbad : BadPattern (cfg.templates.name_patterns.getD
      ((row_rng P cfg.seed i).randrange 0
        cfg.templates.name_patterns.length).1 [])) :
    ∃ e, base_name_for_index P cfg i = .error e := by
  obtain ⟨segs, hpat, hwf, nm, hmem, hnm⟩ := hbad
  obtain ⟨a, n, q, b, _, _, _, _, heq⟩ := base_name_eq P cfg i segs hwf hpat
  have hbr : hasBrace (render (segs.map (fun sg => substSeg "brandish".data b
      (substSeg "qualifier".data q (substSeg "noun".data n
        (substSeg "adj".data a sg)))))) = true := by
    apply render_brace_of_ph _ nm
    have : (fun sg => substSeg "brandish".data b
        (substSeg "qualifier".data q (substSeg "noun".data n
          (substSeg "adj".data a sg)))) (Seg.ph nm) = Seg.ph nm :=
      subst4_unknown a n q b nm hnm
    rw [← this]
    exact List.mem_map_of_mem _ hmem
  rw [heq, if_pos (by rw [hbr])]
  exact ⟨_, rfl⟩

/-! ## The materialization loop -/

theorem mapE_ok_length (f : Nat → Except String ProductRow) :
    ∀ l rs, mapE f l = .ok rs → rs.length = l.length := by
  intro l
  induction l with
  | nil => intro rs h; simp only [mapE, Except.ok.injEq] at h; simp [← h]
  | cons i is ih =>
    intro rs h
    simp only [mapE] at h
    cases hfi : f i with
    | error e => rw [hfi] at h; exact absurd h (by simp)
    | ok r =>
      rw [hfi] at h
      cases hm : mapE f is with
      | error e => rw [hm] at h; exact absurd h (by simp)
      | ok rs' =>
        rw [hm] at h
        simp only [Except.ok.injEq] at h
        subst h
        simp [ih rs' hm]

theorem mapE_ok_get (f : Nat → Except String ProductRow) :
    ∀ l rs, mapE f l = .ok rs → ∀ k a, l.get? k = some a →
      ∃ r, rs.get? k = some r ∧ f a = .ok r := by
  intro l
  induction l with
  | nil => intro rs _ k a ha; simp at ha
  | cons i is ih =>
    intro rs h k a ha
    simp only [mapE] at h
    cases hfi : f i with
    | error e => rw [hfi] at h; exact absurd h (by simp)
    | ok r =>
      rw [hfi] at h
      cases hm : mapE f is with
      | error e => rw [hm] at h; exact absurd h (by simp)
      | ok rs' =>
        rw [hm] at h
        simp only [Except.ok.injEq] at h
        subst h
        cases k with
        | zero =>
          simp only [List.get?_cons_zero, Option.some.injEq] at ha
          subst ha
          exact ⟨r, rfl, hfi⟩
        | succ k =>
          simp only [List.get?_cons_succ] at ha
          exact ih rs' hm k a ha

theorem mapE_ok_mem (f : Nat → Except String ProductRow) :
    ∀ l rs, mapE f l = .ok rs → ∀ r ∈ rs, ∃ i ∈ l, f i = .ok r := by
  intro l
  induction l with
  | nil =>
    intro rs h r hr
    simp only [mapE, Except.ok.injEq] at h
    subst h
    simp at hr
  | cons i is ih =>
    intro rs h r hr
    simp only [mapE] at h
    cases hfi : f i with
    | error e => rw [hfi] at h; exact absurd h (by simp)
    | ok r' =>
      rw [hfi] at h
      cases hm : mapE f is with
      | error e => rw [hm] at h; exact absurd h (by simp)
      | ok rs' =>
        rw [hm] at h
        simp only [Except.ok.injEq] at h
        subst h
        rcases List.mem_cons.mp hr with rfl | hr
        · exact ⟨i, by simp, hfi⟩
        · obtain ⟨j, hj, hfj⟩ := ih rs' hm r hr
          exact ⟨j, by simp [hj], hfj⟩

theorem mapE_ok_of_all (f : Nat → Except String ProductRow) :
    ∀ l, (∀ i ∈ l, ∃ r, f i = .ok r) → ∃ rs, mapE f l = .ok rs := by
  intro l
  induction l with
  | nil => intro _; exact ⟨[], rfl⟩
  | cons i is ih =>
    intro h
    obtain ⟨r, hr⟩ := h i (by simp)
    obtain ⟨rs, hrs⟩ := ih (fun j hj => h j (by simp [hj]))
    refine ⟨r :: rs, ?_⟩
    simp only [mapE]
    rw [hr, hrs]

/-! ## Success of each per-row step under a valid configuration -/

theorem ofWeights_ok (items : List Str) (weights : List ℚ)
    (h1 : items.length = weights.length) (h2 : items ≠ []) :
    WeightedPicker.ofWeights items weights =
      .ok ⟨items, cumulative 0 weights, (cumulative 0 weights).getLastD 0⟩ := by
  unfold WeightedPicker.ofWeights
  rw [if_neg (by omega), if_neg h2]

theorem choose_injection_field_ok (cfg : SeedConfig) (rng : RNG)
    (hne : cfg.token_injection.fields ≠ []) :
    ∃ fd, choose_injection_field cfg rng = .ok fd := by
  unfold choose_injection_field
  rw [ofWeights_ok _ _ (by simp) (by simpa using hne)]
  exact ⟨_, rfl⟩

theorem maybe_make_near_duplicate_ok (P : Primitives) (cfg : SeedConfig)
    (i : Nat) (base : Str) (rng : RNG)
    (hbase : ∀ j, ∃ s, base_name_for_index P cfg j = .ok s) :
    ∃ nm, maybe_make_near_duplicate P cfg i base rng = .ok nm := by
  simp only [maybe_make_near_duplicate]
  by_cases h0 : i = 0
  · rw [if_pos h0]; exact ⟨_, rfl⟩
  · rw [if_neg h0]
    by_cases hroll : cfg.duplicates.near_duplicate_row_rate ≤ rng.random.1
    · rw [if_pos hroll]; exact ⟨_, rfl⟩
    · rw [if_neg hroll]
      obtain ⟨s, hs⟩ := hbase (rng.random.2.randrange 0 i).1
      simp only [hs]
      split_ifs <;> exact ⟨_, rfl⟩

theorem injectStep_ok (cfg : SeedConfig) (rate : ℚ) (tokDraw : RNG → Str × RNG)
    (st : RowState) (rng : RNG) (hne : cfg.token_injection.fields ≠ []) :
    ∃ out, injectStep cfg rate tokDraw st rng = .ok out := by
  simp only [injectStep]
  by_cases hroll : rng.random.1 < rate
  · rw [if_pos hroll]
    obtain ⟨fd, hfd⟩ := choose_injection_field_ok cfg (tokDraw rng.random.2).2 hne
    simp only [hfd]
    exact ⟨_, rfl⟩
  · rw [if_neg hroll]
    exact ⟨_, rfl⟩

theorem base_name_all_ok (P : Primitives) (cfg : SeedConfig)
    (hne : cfg.templates.name_patterns ≠ [])
    (hgood : ∀ pat ∈ cfg.templates.name_patterns, GoodPattern pat) :
    ∀ i, ∃ s, base_name_for_index P cfg i = .ok s := by
  intro i
  apply base_name_ok_of_good
  apply hgood
  apply getD_mem
  exact RNG.randrange_lt _ 0 _ (List.length_pos.mpr hne)

theorem assembleRow_ok (P : Primitives) (cfg : SeedConfig)
    (bp cp : WeightedPicker) (i : Nat)
    (hfields : cfg.token_injection.fields ≠ [])
    (hbase : ∀ j, ∃ s, base_name_for_index P cfg j = .ok s) :
    ∃ r, assembleRow P cfg bp cp i = .ok r := by
  simp only [assembleRow]
  obtain ⟨s, hs⟩ := hbase i
  simp only [hs]
  obtain ⟨nm, hnm⟩ := maybe_make_near_duplicate_ok P cfg i s
    (cp.pick (bp.pick (row_rng P cfg.seed i)).2).2 hbase
  simp only [hnm]
  obtain ⟨s1, hs1⟩ := injectStep_ok cfg cfg.token_injection.common_row_rate
    commonTokenDraw ⟨nm.1, (bp.pick (row_rng P cfg.seed i)).1,
      (cp.pick (bp.pick (row_rng P cfg.seed i)).2).1,
      (build_description cfg i nm.2).1⟩ (build_description cfg i nm.2).2 hfields
  simp only [hs1]
  obtain ⟨s2, hs2⟩ := injectStep_ok cfg cfg.token_injection.rare_row_rate
    (rare_token cfg) s1.1 s1.2 hfields
  simp only [hs2]
  exact ⟨_, rfl⟩

theorem generate_products_ok (P : Primitives) (cfg : SeedConfig)
    (hv : ValidConfig cfg) :
    ∃ rows_, generate_products P cfg = .ok rows_ ∧
      rows_.length = cfg.rows := by
  unfold generate_products
  rw [ofWeights_ok _ _ (by simp) (by simpa using hv.brands_ne),
    ofWeights_ok _ _ (by simp) (by simpa using hv.cats_ne)]
  have hbase := base_name_all_ok P cfg hv.patterns_ne hv.patterns_good
  obtain ⟨rs, hrs⟩ := mapE_ok_of_all _ (List.range cfg.rows)
    (fun i _ => assembleRow_ok P cfg _ _ i hv.fields_ne hbase)
  exact ⟨rs, hrs, by rw [mapE_ok_length _ _ _ hrs, List.length_range]⟩

/-! ## Description bounds through the full row assembly -/

theorem assembleRow_desc (P : Primitives) (cfg : SeedConfig)
    (bp cp : WeightedPicker) (i : Nat) (r : ProductRow)
    (hmm : cfg.description_tokens.min ≤ cfg.description_tokens.max)
    (hpfx : ∀ c ∈ cfg.rare_tokens.pfx, isWs c = false)
    (h : assembleRow P cfg bp cp i = .ok r) :
    cfg.description_tokens.min ≤ (splitWsL r.description).length ∧
      (splitWsL r.description).length ≤ cfg.description_tokens.max + 2 := by
  simp only [assembleRow] at h
  cases hbn : base_name_for_index P cfg i with
  | error e => rw [hbn] at h; exact absurd h (by simp)
  | ok base =>
    simp only [hbn] at h
    cases hnm : maybe_make_near_duplicate P cfg i base
        (cp.pick (bp.pick (row_rng P cfg.seed i)).2).2 with
    | error e => rw [hnm] at h; exact absurd h (by simp)
    | ok nm =>
      simp only [hnm] at h
      obtain ⟨target, htmin, htmax, _, hshape, _⟩ :=
        build_description_spec cfg i nm.2 hmm
      cases hs1 : injectStep cfg cfg.token_injection.common_row_rate
          commonTokenDraw ⟨nm.1, (bp.pick (row_rng P cfg.seed i)).1,
            (cp.pick (bp.pick (row_rng P cfg.seed i)).2).1,
            (build_description cfg i nm.2).1⟩
          (build_description cfg i nm.2).2 with
      | error e => rw [hs1] at h; exact absurd h (by simp)
      | ok s1 =>
        simp only [hs1] at h
        cases hs2 : injectStep cfg cfg.token_injection.rare_row_rate
            (rare_token cfg) s1.1 s1.2 with
        | error e => rw [hs2] at h; exact absurd h (by simp)
        | ok s2 =>
          simp only [hs2, Except.ok.injEq] at h
          have hd1 := injectStep_desc cfg cfg.token_injection.common_row_rate
            commonTokenDraw _ _ s1.1 s1.2 target
            (fun rr => commonTokenDraw_token rr) hshape hs1
          have hr : r.description = s2.1.description := by
            rw [← h]
          rcases hd1 with hd1 | hd1
          · have hd2 := injectStep_desc cfg cfg.token_injection.rare_row_rate
              (rare_token cfg) s1.1 s1.2 s2.1 s2.2 target
              (fun rr => rare_token_token cfg rr hpfx) hd1 hs2
            rcases hd2 with hd2 | hd2
            · rw [hr, DescShape_count _ _ hd2]; omega
            · rw [hr, DescShape_count _ _ hd2]; omega
          · have hd2 := injectStep_desc cfg cfg.token_injection.rare_row_rate
              (rare_token cfg) s1.1 s1.2 s2.1 s2.2 (target + 1)
              (fun rr => rare_token_token cfg rr hpfx) hd1 hs2
            rcases hd2 with hd2 | hd2
            · rw [hr, DescShape_count _ _ hd2]; omega
            · rw [hr, DescShape_count _ _ hd2]; omega

/-! ## The weighted picker: cumulative table and binary search -/

theorem getD_eq_getElem {α : Type _} (l : List α) (i : Nat) (d : α)
    (h : i < l.length) : l.getD i d = l[i] := by
  simp [List.getD_eq_getElem?_getD, List.getElem?_eq_getElem h]

theorem cumulative_length (acc : ℚ) :
    ∀ ws : List ℚ, (cumulative acc ws).length = ws.length := by
  intro ws
  induction ws generalizing acc with
  | nil => rfl
  | cons w ws ih => simp [cumulative, ih]

theorem cumulative_getD :
    ∀ (ws : List ℚ) (acc : ℚ) (i : Nat), i < ws.length →
      (cumulative acc ws).getD i 0 = acc + (ws.take (i + 1)).sum := by
  intro ws
  induction ws with
  | nil => intro acc i h; simp at h
  | cons w ws ih =>
    intro acc i h
    cases i with
    | zero => simp [cumulative]
    | succ i =>
      simp only [cumulative, List.getD_cons_succ]
      rw [ih (acc + w) i (by simpa using h)]
      simp [List.take_cons]
      ring

theorem sum_take_mono (ws : List ℚ) (hnn : ∀ w ∈ ws, 0 ≤ w) (a b : Nat)
    (hab : a ≤ b) : (ws.take a).sum ≤ (ws.take b).sum := by
  calc (ws.take a).sum = ((ws.take b).take a).sum := by
        rw [List.take_take, min_eq_left hab]
    _ ≤ ((ws.take b).take a).sum + ((ws.take b).drop a).sum := by
        refine le_add_of_nonneg_right (List.sum_nonneg ?_)
        intro x hx
        exact hnn x (List.mem_of_mem_take (List.mem_of_mem_drop hx))
    _ = (ws.take b).sum := by rw [← List.sum_append, List.take_append_drop]

theorem cumulative_mono (ws : List ℚ) (hnn : ∀ w ∈ ws, 0 ≤ w) (i j : Nat)
    (hij : i ≤ j) (hj : j < ws.length) :
    (cumulative 0 ws).getD i 0 ≤ (cumulative 0 ws).getD j 0 := by
  rw [cumulative_getD ws 0 i (lt_of_le_of_lt hij hj), cumulative_getD ws 0 j hj]
  simpa using sum_take_mono ws hnn (i + 1) (j + 1) (by omega)

theorem getLastD_of_ne_nil {α : Type _} (l : List α) (h : l ≠ [])
    (d1 d2 : α) : l.getLastD d1 = l.getLastD d2 := by
  cases l with
  | nil => exact absurd rfl h
  | cons a l => simp only [List.getLastD_cons]

theorem cumulative_getLastD :
    ∀ (ws : List ℚ) (acc : ℚ), ws ≠ [] →
      (cumulative acc ws).getLastD 0 = acc + ws.sum := by
  intro ws
  induction ws with
  | nil => intro acc h; exact absurd rfl h
  | cons w ws ih =>
    intro acc _
    cases ws with
    | nil => simp [cumulative]
    | cons w' ws' =>
      have hne : cumulative (acc + w) (w' :: ws') ≠ [] := by
        simp [cumulative]
      calc (cumulative acc (w :: w' :: ws')).getLastD 0
          = (cumulative (acc + w) (w' :: ws')).getLastD (acc + w) := by
            simp only [cumulative, List.getLastD_cons]
        _ = (cumulative (acc + w) (w' :: ws')).getLastD 0 :=
            getLastD_of_ne_nil _ hne _ _
        _ = (acc + w) + (w' :: ws').sum := ih (acc + w) (by simp)
        _ = acc + (w :: w' :: ws').sum := by
            simp only [List.sum_cons]
            ring

theorem getD_length_sub_one {α : Type _} :
    ∀ (l : List α) (d : α), l ≠ [] → l.getD (l.length - 1) d = l.getLastD d := by
  intro l
  induction l with
  | nil => intro d h; exact absurd rfl h
  | cons a l ih =>
    intro d _
    cases l with
    | nil => simp
    | cons b t =>
      have h1 : (a :: b :: t).getD ((b :: t).length) d = (b :: t).getD
          ((b :: t).length - 1) d := by
        simp [List.getD_cons_succ]
      calc (a :: b :: t).getD ((a :: b :: t).length - 1) d
          = (b :: t).getD ((b :: t).length - 1) d := by
            simpa using h1
        _ = (b :: t).getLastD d := ih d (by simp)
        _ = (b :: t).getLastD a := getLastD_of_ne_nil _ (by simp) _ _
        _ = (a :: b :: t).getLastD d := by simp only [List.getLastD_cons]

theorem bsearchFuel_correct (cdf : List ℚ) (x : ℚ)
    (hmono : ∀ i j, i ≤ j → j < cdf.length → x ≤ cdf.getD i 0 →
      x ≤ cdf.getD j 0) :
    ∀ fuel lo hi, lo ≤ hi → hi < cdf.length → hi - lo ≤ fuel →
      x ≤ cdf.getD hi 0 → (∀ k < lo, ¬ x ≤ cdf.getD k 0) →
      lo ≤ bsearchFuel cdf x fuel lo hi ∧ bsearchFuel cdf x fuel lo hi ≤ hi ∧
        x ≤ cdf.getD (bsearchFuel cdf x fuel lo hi) 0 ∧
        ∀ k < bsearchFuel cdf x fuel lo hi, ¬ x ≤ cdf.getD k 0 := by
  intro fuel
  induction fuel with
  | zero =>
    intro lo hi h1 _ h3 h4 h5
    have : lo = hi := by omega
    subst this
    simp only [bsearchFuel]
    exact ⟨Nat.le_refl _, Nat.le_refl _, h4, h5⟩
  | succ fuel ih =>
    intro lo hi h1 h2 h3 h4 h5
    by_cases hlt : lo < hi
    · have hmlo : lo ≤ (lo + hi) / 2 := by
        rw [Nat.le_div_iff_mul_le (by omega : (0:Nat) < 2)]
        omega
      have hmhi : (lo + hi) / 2 < hi := by
        rw [Nat.div_lt_iff_lt_mul (by omega : (0:Nat) < 2)]
        omega
      simp only [bsearchFuel, if_pos hlt]
      by_cases hx : x ≤ cdf.getD ((lo + hi) / 2) 0
      · rw [if_pos hx]
        obtain ⟨c1, c2, c3, c4⟩ := ih lo ((lo + hi) / 2) hmlo (by omega)
          (by omega) hx h5
        exact ⟨c1, by omega, c3, c4⟩
      · rw [if_neg hx]
        have h5' : ∀ k < (lo + hi) / 2 + 1, ¬ x ≤ cdf.getD k 0 := by
          intro k hk hxk
          rcases Nat.lt_or_ge k lo with hklo | hklo
          · exact h5 k hklo hxk
          · exact hx (hmono k ((lo + hi) / 2) (by omega) (by omega) hxk)
        obtain ⟨c1, c2, c3, c4⟩ := ih ((lo + hi) / 2 + 1) hi (by omega)
          h2 (by omega) h4 h5'
        exact ⟨by omega, c2, c3, c4⟩
    · have : lo = hi := by omega
      subst this
      simp only [bsearchFuel, if_neg hlt]
      exact ⟨Nat.le_refl _, Nat.le_refl _, h4, h5⟩

theorem ofWeights_inv (items : List Str) (weights : List ℚ)
    (p : WeightedPicker) (hmk : WeightedPicker.ofWeights items weights = .ok p) :
    items.length = weights.length ∧ items ≠ [] ∧
      p = ⟨items, cumulative 0 weights, (cumulative 0 weights).getLastD 0⟩ := by
  unfold WeightedPicker.ofWeights at hmk
  by_cases h1 : items.length ≠ weights.length
  · rw [if_pos h1] at hmk; exact absurd hmk (by simp)
  · rw [if_neg h1] at hmk
    by_cases h2 : items = []
    · rw [if_pos h2] at hmk; exact absurd hmk (by simp)
    · rw [if_neg h2] at hmk
      simp only [Except.ok.injEq] at hmk
      exact ⟨by omega, h2, hmk.symm⟩

theorem pick_eq_first_match (items : List Str) (weights : List ℚ)
    (p : WeightedPicker) (rng : RNG)
    (hmk : WeightedPicker.ofWeights items weights = .ok p)
    (hnn : ∀ w ∈ weights, 0 ≤ w) :
    0 ≤ rng.random.1 * p.total ∧
    rng.random.1 * p.total ≤ p.total ∧
    (0 < p.total → rng.random.1 * p.total < p.total) ∧
    p.pick rng = (p.items.getD
      (p.cdf.findIdx (fun c => decide (rng.random.1 * p.total ≤ c))) [],
      rng.random.2) ∧
    p.cdf.findIdx (fun c => decide (rng.random.1 * p.total ≤ c)) <
      p.items.length := by
  obtain ⟨hlen, hne, rfl⟩ := ofWeights_inv items weights p hmk
  have hwne : weights ≠ [] := by
    intro hw
    rw [hw] at hlen
    exact hne (List.eq_nil_of_length_eq_zero (by simpa using hlen))
  have hclen : (cumulative 0 weights).length = weights.length :=
    cumulative_length 0 weights
  have hcne : cumulative 0 weights ≠ [] := by
    intro hc
    rw [hc] at hclen
    exact hwne (List.eq_nil_of_length_eq_zero (by simpa using hclen.symm))
  have hcpos : 0 < (cumulative 0 weights).length :=
    List.length_pos.mpr hcne
  have htot : (cumulative 0 weights).getLastD 0 = weights.sum := by
    rw [cumulative_getLastD weights 0 hwne]
    ring
  have htotnn : 0 ≤ (cumulative 0 weights).getLastD 0 := by
    rw [htot]
    exact List.sum_nonneg hnn
  set x := rng.random.1 * (cumulative 0 weights).getLastD 0 with hx
  have hx0 : 0 ≤ x := mul_nonneg (RNG.random_nonneg rng) htotnn
  have hxle : x ≤ (cumulative 0 weights).getLastD 0 :=
    mul_le_of_le_one_left htotnn (le_of_lt (RNG.random_lt_one rng))
  have hxlt : 0 < (cumulative 0 weights).getLastD 0 →
      x < (cumulative 0 weights).getLastD 0 := by
    intro hpos
    calc x < 1 * (cumulative 0 weights).getLastD 0 :=
          mul_lt_mul_of_pos_right (RNG.random_lt_one rng) hpos
      _ = (cumulative 0 weights).getLastD 0 := one_mul _
  have hmono : ∀ i j, i ≤ j → j < (cumulative 0 weights).length →
      x ≤ (cumulative 0 weights).getD i 0 →
      x ≤ (cumulative 0 weights).getD j 0 := by
    intro i j hij hj hxi
    exact le_trans hxi (cumulative_mono weights hnn i j hij (by omega))
  have hhi : x ≤ (cumulative 0 weights).getD
      ((cumulative 0 weights).length - 1) 0 := by
    rw [getD_length_sub_one _ _ hcne]
    exact hxle
  obtain ⟨c1, c2, c3, c4⟩ := bsearchFuel_correct (cumulative 0 weights) x hmono
    (cumulative 0 weights).length 0 ((cumulative 0 weights).length - 1)
    (by omega) (by omega) (by omega) hhi (by omega)
  have hidxlen : bsearchFuel (cumulative 0 weights) x
      (cumulative 0 weights).length 0 ((cumulative 0 weights).length - 1) <
      (cumulative 0 weights).length := by omega
  have hfind : (cumulative 0 weights).findIdx (fun c => decide (x ≤ c)) =
      bsearchFuel (cumulative 0 weights) x (cumulative 0 weights).length 0
        ((cumulative 0 weights).length - 1) := by
    rw [List.findIdx_eq hidxlen]
    constructor
    · rw [← getD_eq_getElem _ _ 0 hidxlen]
      simpa using c3
    · intro j hj
      have := c4 j hj
      rw [getD_eq_getElem _ _ 0 (by omega)] at this
      simpa using this
  refine ⟨hx0, hxle, hxlt, ?_, ?_⟩
  · simp only [WeightedPicker.pick]
    rw [hfind]
  · show (cumulative 0 weights).findIdx (fun c => decide (x ≤ c)) < items.length
    rw [hfind]
    omega

/-! ## The claims -/

/-- C1: for every configuration (and every instantiation of the digest
primitives), two invocations of `generate_products` that both succeed
produce element-wise identical sequences: every field of the `i`-th record
of the first run equals the corresponding field of the `i`-th record of the
second run. -/
theorem claimC1_determinism (P : Primitives) (cfg : SeedConfig)
    (rows1 rows2 : List ProductRow)
    (h1 : generate_products P cfg = .ok rows1)
    (h2 : generate_products P cfg = .ok rows2) :
    ∀ i r1 r2, rows1.get? i = some r1 → rows2.get? i = some r2 →
      r1.id = r2.id ∧ r1.name = r2.name ∧ r1.brand = r2.brand ∧
      r1.category = r2.category ∧ r1.description = r2.description ∧
      r1.created_at = r2.created_at ∧ r1.updated_at = r2.updated_at := by
  have hrows : rows1 = rows2 := by
    rw [h1] at h2
    exact Except.ok.inj h2
  subst hrows
  intro i r1 r2 hh1 hh2
  have : r1 = r2 := Option.some.inj (hh1.symm.trans hh2)
  subst this
  exact ⟨rfl, rfl, rfl, rfl, rfl, rfl, rfl⟩

/-- C2: when `generate_products` succeeds, the record at every index `i`
below `cfg.rows` equals the record obtained by regenerating row `i` in
isolation (performing only the per-row steps, with the pickers rebuilt from
the configuration); no row's content depends on any other row having been
generated. -/
theorem claimC2_row_independence (P : Primitives) (cfg : SeedConfig)
    (rows_ : List ProductRow) (hg : generate_products P cfg = .ok rows_) :
    ∀ i, i < cfg.rows →
      ∃ r, rows_.get? i = some r ∧ row_in_isolation P cfg i = .ok r := by
  intro i hi
  unfold generate_products at hg
  cases hb : WeightedPicker.ofWeights (cfg.distributions.brands.map Prod.fst)
      (cfg.distributions.brands.map Prod.snd) with
  | error e => rw [hb] at hg; exact absurd hg (by simp)
  | ok bp =>
    rw [hb] at hg
    cases hc : WeightedPicker.ofWeights
        (cfg.distributions.categories.map Prod.fst)
        (cfg.distributions.categories.map Prod.snd) with
    | error e => rw [hc] at hg; exact absurd hg (by simp)
    | ok cp =>
      rw [hc] at hg
      have hget : (List.range cfg.rows).get? i = some i := by
        rw [List.get?_eq_getElem?]
        exact List.getElem?_range hi
      obtain ⟨r, hr, hfr⟩ := mapE_ok_get _ _ _ hg i i hget
      refine ⟨r, hr, ?_⟩
      unfold row_in_isolation
      rw [hb, hc]
      exact hfr

/-- C3 (amended): for every valid configuration whose rare-token prefix is
whitespace-free, every record yielded by `generate_products` has a
description whose whitespace-token count lies in
`[descriptionTokens.min, descriptionTokens.max + 2]` — the synthesizer's
output is within `[min, max]` and each of the two injection events can add
one more token to the description.  (The original claim's upper bound `max`
is refuted by `claimC3_counterexample`.) -/
theorem claimC3_description_bounds (P : Primitives) (cfg : SeedConfig)
    (rows_ : List ProductRow) (hv : ValidConfig cfg)
    (hpfx : ∀ c ∈ cfg.rare_tokens.pfx, isWs c = false)
    (hg : generate_products P cfg = .ok rows_) :
    ∀ r ∈ rows_,
      cfg.description_tokens.min ≤ (splitWsL r.description).length ∧
      (splitWsL r.description).length ≤ cfg.description_tokens.max + 2 := by
  intro r hr
  unfold generate_products at hg
  cases hb : WeightedPicker.ofWeights (cfg.distributions.brands.map Prod.fst)
      (cfg.distributions.brands.map Prod.snd) with
  | error e => rw [hb] at hg; exact absurd hg (by simp)
  | ok bp =>
    rw [hb] at hg
    cases hc : WeightedPicker.ofWeights
        (cfg.distributions.categories.map Prod.fst)
        (cfg.distributions.categories.map Prod.snd) with
    | error e => rw [hc] at hg; exact absurd hg (by simp)
    | ok cp =>
      rw [hc] at hg
      obtain ⟨i, _, hfi⟩ := mapE_ok_mem _ _ _ hg r hr
      exact assembleRow_desc P cfg bp cp i r hv.desc_min_le hpfx hfi

/-- C4: for every valid configuration (which requires `rows > 0`),
`generate_products` succeeds and yields exactly `cfg.rows` records. -/
theorem claimC4_row_count (P : Primitives) (cfg : SeedConfig)
    (hv : ValidConfig cfg) :
    0 < cfg.rows ∧ ∃ rows_, generate_products P cfg = .ok rows_ ∧
      rows_.length = cfg.rows :=
  ⟨hv.rows_pos, generate_products_ok P cfg hv⟩

/-- C5: for every `WeightedPicker` built from non-empty, equal-length label
and weight lists with non-negative weights, `pick` draws `x = u * total`
with `u` uniform in `[0, 1)` — so `0 ≤ x ≤ total`, strictly below `total`
whenever `total` is positive — and returns the label at the smallest index
whose cumulative weight is `≥ x`: the binary-search result coincides with a
first-match linear scan (`List.findIdx`) over the cumulative table, and that
index is in range. -/
theorem claimC5_pick_first_match (items : List Str) (weights : List ℚ)
    (p : WeightedPicker) (rng : RNG)
    (hmk : WeightedPicker.ofWeights items weights = .ok p)
    (hnn : ∀ w ∈ weights, 0 ≤ w) :
    0 ≤ rng.random.1 * p.total ∧
    rng.random.1 * p.total ≤ p.total ∧
    (0 < p.total → rng.random.1 * p.total < p.total) ∧
    p.pick rng = (p.items.getD
      (p.cdf.findIdx (fun c => decide (rng.random.1 * p.total ≤ c))) [],
      rng.random.2) ∧
    p.cdf.findIdx (fun c => decide (rng.random.1 * p.total ≤ c)) <
      p.items.length :=
  pick_eq_first_match items weights p rng hmk hnn

/-- C6: `base_name_for_index` raises a template error exactly when the
selected pattern retains an unresolved placeholder: if the pattern drawn for
row `i` is built only from the four recognized placeholders and brace-free
literal text it always returns a name, and if that pattern contains an
unrecognized placeholder (such as `{color}`) it always raises, whatever the
row index. -/
theorem claimC6_template_safety (P : Primitives) (cfg : SeedConfig) (i : Nat) :
    (GoodPattern (cfg.templates.name_patterns.getD
        ((row_rng P cfg.seed i).randrange 0
          cfg.templates.name_patterns.length).1 []) →
      ∃ s, base_name_for_index P cfg i = .ok s) ∧
    (BadPattern (cfg.templates.name_patterns.getD
        ((row_rng P cfg.seed i).randrange 0
          cfg.templates.name_patterns.length).1 []) →
      ∃ e, base_name_for_index P cfg i = .error e) :=
  ⟨base_name_ok_of_good P cfg i, base_name_error_of_bad P cfg i⟩

/-- C7: for `0 < min ≤ max` and every randomness source,
`build_description` draws a target uniformly in `[min, max]` and returns a
text whose whitespace-token count is exactly that target, with the token at
each position `p` drawn from the adjectives when `p % 5 = 0`, the nouns when
`p % 5 = 1`, and the filler vocabulary otherwise. -/
theorem claimC7_description_tokens (cfg : SeedConfig) (i : Nat) (rng : RNG)
    (h1 : 0 < cfg.description_tokens.min)
    (h2 : cfg.description_tokens.min ≤ cfg.description_tokens.max) :
    ∃ target,
      cfg.description_tokens.min ≤ target ∧
      target ≤ cfg.description_tokens.max ∧
      target = (rng.randint cfg.description_tokens.min
        cfg.description_tokens.max).1 ∧
      (splitWsL (build_description cfg i rng).1).length = target ∧
      ∀ p, p < (splitWsL (build_description cfg i rng).1).length →
        descTokOk p ((splitWsL (build_description cfg i rng).1).getD p []) := by
  obtain ⟨t, ha, hb, hc, hshape, hpos⟩ := build_description_spec cfg i rng h2
  exact ⟨t, ha, hb, hc, by rw [DescShape_count _ _ hshape], hpos⟩

/-- C8: for row index `0`, `maybe_make_near_duplicate` always returns the
base name unchanged (and consumes no randomness), for every configuration —
whatever the near-duplicate rate, including `1.0` — and every state of the
randomness source. -/
theorem claimC8_near_duplicate_base (P : Primitives) (cfg : SeedConfig)
    (base : Str) (rng : RNG) :
    maybe_make_near_duplicate P cfg 0 base rng = .ok (base, rng) := rfl

/-- C9: every rare token equals the configured prefix followed by the
decimal digits of an integer `n` with `start ≤ n ≤ end`, zero-padded on the
left to at least the configured width; for the scenario
`prefix="rare-", start=1, end=20000, width=6` the numeric part has exactly
6 digits and represents an integer in `[1, 20000]`. -/
theorem claimC9_rare_token_format (cfg : SeedConfig) (rng : RNG)
    (h : cfg.rare_tokens.start ≤ cfg.rare_tokens.stop) :
    ∃ n, cfg.rare_tokens.start ≤ n ∧ n ≤ cfg.rare_tokens.stop ∧
      (rare_token cfg rng).1 =
        cfg.rare_tokens.pfx ++ padNum cfg.rare_tokens.width n ∧
      cfg.rare_tokens.width ≤ (padNum cfg.rare_tokens.width n).length ∧
      (∀ c ∈ padNum cfg.rare_tokens.width n, c ∈ "0123456789".data) ∧
      digitsVal (padNum cfg.rare_tokens.width n) = n ∧
      (cfg.rare_tokens.start = 1 → cfg.rare_tokens.stop = 20000 →
        cfg.rare_tokens.width = 6 →
        (padNum cfg.rare_tokens.width n).length = 6 ∧ 1 ≤ n ∧ n ≤ 20000) := by
  refine ⟨(rng.randint cfg.rare_tokens.start cfg.rare_tokens.stop).1,
    RNG.randint_ge rng _ _, RNG.randint_le rng _ _ h, rfl, ?_, padNum_chars _ _,
    digitsVal_padNum _ _, ?_⟩
  · rw [padNum_length]
    omega
  · intro h1 h2 h3
    have hn2 : (rng.randint cfg.rare_tokens.start cfg.rare_tokens.stop).1 ≤
        20000 := h2 ▸ RNG.randint_le rng _ _ h
    have hdl : (natDigits (rng.randint cfg.rare_tokens.start
        cfg.rare_tokens.stop).1).length ≤ 6 :=
      natDigits_length_le _ 6 (by omega) (by omega)
    refine ⟨?_, h1 ▸ RNG.randint_ge rng _ _, hn2⟩
    rw [h3, padNum_length]
    omega

/-- C10: if the text splits into zero whitespace tokens, the injection
helper returns exactly the injected token and leaves the randomness source
untouched; otherwise it consumes exactly one draw, obtains a position in
`[0, tokenCount]` inclusive, and returns the parts with the token inserted
there, rejoined with single spaces. -/
theorem claimC10_inject_positions (text token : Str) (rng : RNG) :
    (splitWsL text = [] → inject_token_into_text text token rng =
      (token, rng)) ∧
    (splitWsL text ≠ [] → ∃ pos, pos ≤ (splitWsL text).length ∧
      inject_token_into_text text token rng =
        (joinSpL ((splitWsL text).insertIdx pos token),
          ⟨rng.stream, rng.used + 1⟩)) := by
  constructor
  · intro h
    simp [inject_token_into_text, h]
  · intro h
    refine ⟨(rng.randrange 0 ((splitWsL text).length + 1)).1,
      Nat.lt_succ_iff.mp (RNG.randrange_lt rng 0 _ (by omega)), ?_⟩
    simp only [inject_token_into_text, h, if_false]
    rw [RNG.randrange_snd]

/-! ## Concrete witnesses

`Rat.mul`/`Rat.add`/`Rat.sub`/`Rat.inv` are `@[irreducible]` in the library;
they are made semireducible locally so that the concrete generator runs
below evaluate by `decide`. -/

section

attribute [local semireducible] Rat.mul Rat.add Rat.sub Rat.inv

/-- `cfg0` satisfies every configuration constraint. -/
theorem cfg0_valid : ValidConfig cfg0 := by
  constructor
  case patterns_good =>
    intro pat hp
    have hpe : pat = "{adj}".data := by simpa [cfg0] using hp
    subst hpe
    refine ⟨[Seg.ph "adj".data], by decide, ?_⟩
    intro sg hsg
    have hse : sg = Seg.ph "adj".data := by simpa using hsg
    subst hse
    show "adj".data ∈ phNames
    decide
  all_goals decide

/-- `cfgC3` satisfies every configuration constraint. -/
theorem cfgC3_valid : ValidConfig cfgC3 := by
  constructor
  case patterns_good =>
    intro pat hp
    have hpe : pat = "{adj}".data := by simpa [cfgC3] using hp
    subst hpe
    refine ⟨[Seg.ph "adj".data], by decide, ?_⟩
    intro sg hsg
    have hse : sg = Seg.ph "adj".data := by simpa using hsg
    subst hse
    show "adj".data ∈ phNames
    decide
  all_goals decide

/-- Witness for C1 at the concrete run `P0`/`cfg0`. -/
theorem claimC1_witness :
    row0.id = row0.id ∧ row0.name = row0.name ∧ row0.brand = row0.brand ∧
    row0.category = row0.category ∧ row0.description = row0.description ∧
    row0.created_at = row0.created_at ∧ row0.updated_at = row0.updated_at :=
  claimC1_determinism P0 cfg0 [row0] [row0] (by decide) (by decide)
    0 row0 row0 (by decide) (by decide)

/-- Witness for C2 at the concrete run `P0`/`cfg0`, row 0. -/
theorem claimC2_witness :
    ∃ r, [row0].get? 0 = some r ∧ row_in_isolation P0 cfg0 0 = .ok r :=
  claimC2_row_independence P0 cfg0 [row0] (by decide) 0 (by decide)

/-- Witness for the amended C3 at the concrete run `P0`/`cfgC3`. -/
theorem claimC3_witness :
    cfgC3.description_tokens.min ≤ (splitWsL rowC3.description).length ∧
    (splitWsL rowC3.description).length ≤ cfgC3.description_tokens.max + 2 :=
  claimC3_description_bounds P0 cfgC3 [rowC3] cfgC3_valid (by decide)
    (by decide) rowC3 (by decide)

/-- Counterexample to C3 as originally stated: `cfgC3` is a valid
configuration with `max = 1` whose generated record has a description of 3
whitespace tokens (the target plus both injected tokens). -/
theorem claimC3_counterexample :
    ValidConfig cfgC3 ∧ (∀ c ∈ cfgC3.rare_tokens.pfx, isWs c = false) ∧
    generate_products P0 cfgC3 = .ok [rowC3] ∧
    cfgC3.description_tokens.max < (splitWsL rowC3.description).length :=
  ⟨cfgC3_valid, by decide, by decide, by decide⟩

/-- Witness for C4 at `P0`/`cfg0`. -/
theorem claimC4_witness :
    0 < cfg0.rows ∧ ∃ rows_, generate_products P0 cfg0 = .ok rows_ ∧
      rows_.length = cfg0.rows :=
  claimC4_row_count P0 cfg0 cfg0_valid

/-- Witness for C5 on the spec's `{a: 0.7, b: 0.3}` distribution. -/
theorem claimC5_witness :
    0 ≤ (RNG.mk (fun _ => 0) 0).random.1 *
      (WeightedPicker.mk ["a".data, "b".data]
        (cumulative 0 [7/10, 3/10])
        ((cumulative 0 [7/10, 3/10]).getLastD 0)).total ∧
    (RNG.mk (fun _ => 0) 0).random.1 *
      (WeightedPicker.mk ["a".data, "b".data]
        (cumulative 0 [7/10, 3/10])
        ((cumulative 0 [7/10, 3/10]).getLastD 0)).total ≤
      (WeightedPicker.mk ["a".data, "b".data]
        (cumulative 0 [7/10, 3/10])
        ((cumulative 0 [7/10, 3/10]).getLastD 0)).total ∧
    (0 < (WeightedPicker.mk ["a".data, "b".data]
        (cumulative 0 [7/10, 3/10])
        ((cumulative 0 [7/10, 3/10]).getLastD 0)).total →
      (RNG.mk (fun _ => 0) 0).random.1 *
        (WeightedPicker.mk ["a".data, "b".data]
          (cumulative 0 [7/10, 3/10])
          ((cumulative 0 [7/10, 3/10]).getLastD 0)).total <
        (WeightedPicker.mk ["a".data, "b".data]
          (cumulative 0 [7/10, 3/10])
          ((cumulative 0 [7/10, 3/10]).getLastD 0)).total) ∧
    (WeightedPicker.mk ["a".data, "b".data]
        (cumulative 0 [7/10, 3/10])
        ((cumulative 0 [7/10, 3/10]).getLastD 0)).pick
        (RNG.mk (fun _ => 0) 0) =
      ((WeightedPicker.mk ["a".data, "b".data]
          (cumulative 0 [7/10, 3/10])
          ((cumulative 0 [7/10, 3/10]).getLastD 0)).items.getD
        ((WeightedPicker.mk ["a".data, "b".data]
            (cumulative 0 [7/10, 3/10])
            ((cumulative 0 [7/10, 3/10]).getLastD 0)).cdf.findIdx
          (fun c => decide ((RNG.mk (fun _ => 0) 0).random.1 *
            (WeightedPicker.mk ["a".data, "b".data]
              (cumulative 0 [7/10, 3/10])
              ((cumulative 0 [7/10, 3/10]).getLastD 0)).total ≤ c))) [],
        (RNG.mk (fun _ => 0) 0).random.2) ∧
    (WeightedPicker.mk ["a".data, "b".data]
        (cumulative 0 [7/10, 3/10])
        ((cumulative 0 [7/10, 3/10]).getLastD 0)).cdf.findIdx
      (fun c => decide ((RNG.mk (fun _ => 0) 0).random.1 *
        (WeightedPicker.mk ["a".data, "b".data]
          (cumulative 0 [7/10, 3/10])
          ((cumulative 0 [7/10, 3/10]).getLastD 0)).total ≤ c)) <
      (WeightedPicker.mk ["a".data, "b".data]
        (cumulative 0 [7/10, 3/10])
        ((cumulative 0 [7/10, 3/10]).getLastD 0)).items.length :=
  claimC5_pick_first_match ["a".data, "b".data] [7/10, 3/10] _ _ rfl
    (by decide)

/-- Witness for C6: the good pattern `"{adj}"` never raises, the bad
pattern `"{color}"` always raises. -/
theorem claimC6_witness :
    (∃ s, base_name_for_index P0 cfg0 0 = .ok s) ∧
    (∃ e, base_name_for_index P0 cfgBad 0 = .error e) := by
  constructor
  · refine (claimC6_template_safety P0 cfg0 0).1 ⟨[Seg.ph "adj".data],
      by decide, ?_⟩
    intro sg hsg
    have hse : sg = Seg.ph "adj".data := by simpa using hsg
    subst hse
    show "adj".data ∈ phNames
    decide
  · refine (claimC6_template_safety P0 cfgBad 0).2 ⟨[Seg.ph "color".data],
      by decide, ?_, "color".data, by decide, by decide⟩
    intro sg hsg
    have hse : sg = Seg.ph "color".data := by simpa using hsg
    subst hse
    show hasBrace "color".data = false
    decide

/-- Witness for C7 at `cfg0` with the all-zero draw stream. -/
theorem claimC7_witness :
    ∃ target,
      cfg0.description_tokens.min ≤ target ∧
      target ≤ cfg0.description_tokens.max ∧
      target = ((RNG.mk (fun _ => 0) 0).randint cfg0.description_tokens.min
        cfg0.description_tokens.max).1 ∧
      (splitWsL (build_description cfg0 0 (RNG.mk (fun _ => 0) 0)).1).length
        = target ∧
      ∀ p, p < (splitWsL (build_description cfg0 0
          (RNG.mk (fun _ => 0) 0)).1).length →
        descTokOk p ((splitWsL (build_description cfg0 0
          (RNG.mk (fun _ => 0) 0)).1).getD p []) :=
  claimC7_description_tokens cfg0 0 (RNG.mk (fun _ => 0) 0) (by decide)
    (by decide)

/-- Witness for C9 at the spec's rare-token scenario. -/
theorem claimC9_witness :
    ∃ n, cfgC9.rare_tokens.start ≤ n ∧ n ≤ cfgC9.rare_tokens.stop ∧
      (rare_token cfgC9 (RNG.mk (fun _ => 0) 0)).1 =
        cfgC9.rare_tokens.pfx ++ padNum cfgC9.rare_tokens.width n ∧
      cfgC9.rare_tokens.width ≤ (padNum cfgC9.rare_tokens.width n).length ∧
      (∀ c ∈ padNum cfgC9.rare_tokens.width n, c ∈ "0123456789".data) ∧
      digitsVal (padNum cfgC9.rare_tokens.width n) = n ∧
      (cfgC9.rare_tokens.start = 1 → cfgC9.rare_tokens.stop = 20000 →
        cfgC9.rare_tokens.width = 6 →
        (padNum cfgC9.rare_tokens.width n).length = 6 ∧ 1 ≤ n ∧ n ≤ 20000) :=
  claimC9_rare_token_format cfgC9 (RNG.mk (fun _ => 0) 0) (by decide)

/-- Witness for C10 on empty text and on `"a b"`. -/
theorem claimC10_witness :
    inject_token_into_text [] "x".data (RNG.mk (fun _ => 0) 0) =
      ("x".data, RNG.mk (fun _ => 0) 0) ∧
    ∃ pos, pos ≤ (splitWsL "a b".data).length ∧
      inject_token_into_text "a b".data "x".data (RNG.mk (fun _ => 0) 0) =
        (joinSpL ((splitWsL "a b".data).insertIdx pos "x".data),
          ⟨(RNG.mk (fun _ => 0) 0).stream, (RNG.mk (fun _ => 0) 0).used + 1⟩) :=
  ⟨(claimC10_inject_positions [] "x".data (RNG.mk (fun _ => 0) 0)).1
      (by decide),
    (claimC10_inject_positions "a b".data "x".data
      (RNG.mk (fun _ => 0) 0)).2 (by decide)⟩

end
